import Mathlib

/-!
Verification development for the consensuscraft versioned inventory ledger
(package `database`: `database.go` and `validator.go`).

The Go code is shallowly embedded: JSON-decoded inventory slots become an
inductive tree (`Slot`/`Item`), inventory byte strings become `InvBytes`
(either a parseable JSON array of slots or an unparseable blob), the LevelDB
key-value store becomes an association list from player names to stored
values, and `time.Now()` becomes an explicit `Nat` clock argument threaded
through `put`.  Machine integers are modelled as `Int` (no arithmetic in the
source overflows).  Fallible operations return a result paired with the
possibly-updated state.
-/

namespace ConsensusCraft

/-- Result taxonomy of the store operations (`ErrClosed`, `ErrPlayerNotFound`,
plus JSON-unmarshal failures surfaced by `Put`/`Get`). -/
inductive DBErr where
  | closed
  | playerNotFound
  | jsonError
  deriving Repr, DecidableEq

/-- Association-list lookup keyed on the first component: the shared model
of a Go map read and of a LevelDB point `Get` (keys are unique in both). -/
def alookup {beta : Type} (key : String) : List (String × beta) → Option beta
  | [] => none
  | (k, v) :: rest => if k = key then some v else alookup key rest

/-! ## Regular-expression machinery

`database.go` and `validator.go` use two different origin-lore patterns:

* `hasOriginFromServer` (database.go:161) uses
  `^Origin:\s*(.+?)\s+\d\x7b4\x7d-\d\x7b2\x7d-\d\x7b2\x7dT\d\x7b2\x7d:\d\x7b2\x7d:\d\x7b2\x7d`
  (server name must be followed by an RFC3339-style timestamp);
* `validateOrigin` / `HasOriginFromServer` / `AddOriginToItem` (validator.go)
  use `^Origin:\s+(.+)$`.

Both are embedded below as direct backtracking matchers with RE2 semantics:
greedy `\s*`/`\s+` explore longer repetitions first, the lazy `(.+?)` explores
shorter captures first, `.` matches any character except newline, `$` is
end-of-text, and `\s` is the RE2 class containing space, tab, newline,
form feed and carriage return. -/

/-- RE2 whitespace class `\s` (space, tab, newline, form feed, carriage
return). -/
def isRegexSpace (c : Char) : Bool :=
  c == ' ' || c == '\t' || c == '\n' || c == '\x0c' || c == '\r'

/-- Go `unicode.IsSpace` restricted to ASCII, as used by `strings.TrimSpace`
(adds vertical tab to the regex class). -/
def isGoSpace (c : Char) : Bool :=
  c == ' ' || c == '\t' || c == '\n' || c == '\x0b' || c == '\x0c' || c == '\r'

/-- `strings.TrimSpace`: drop leading and trailing whitespace characters. -/
def goTrimSpace (cs : List Char) : List Char :=
  ((cs.dropWhile isGoSpace).reverse.dropWhile isGoSpace).reverse

/-- Check that `cs` starts with `n` ASCII digits, returning the remainder. -/
def matchDigits : Nat → List Char → Option (List Char)
  | 0, cs => some cs
  | n + 1, c :: cs => if c.isDigit then matchDigits n cs else none
  | _ + 1, [] => none

/-- Check that `cs` starts with the literal character `c`, returning the
remainder. -/
def matchLit (c : Char) : List Char → Option (List Char)
  | d :: cs => if c == d then some cs else none
  | [] => none

/-- Prefix match for the timestamp part
`\d\x7b4\x7d-\d\x7b2\x7d-\d\x7b2\x7dT\d\x7b2\x7d:\d\x7b2\x7d:\d\x7b2\x7d`
of the database origin pattern (nothing is anchored after it). -/
def matchTimestamp (cs : List Char) : Bool :=
  (matchDigits 4 cs |>.bind (matchLit '-') |>.bind (matchDigits 2)
    |>.bind (matchLit '-') |>.bind (matchDigits 2) |>.bind (matchLit 'T')
    |>.bind (matchDigits 2) |>.bind (matchLit ':') |>.bind (matchDigits 2)
    |>.bind (matchLit ':') |>.bind (matchDigits 2)).isSome

/-- After a candidate capture for the lazy group `(.+?)`, the rest of the
database pattern is `\s+` followed by the timestamp.  Because the timestamp
starts with a digit, the greedy `\s+` must consume the entire leading
whitespace run. -/
def afterCaptureOk (rest : List Char) : Bool :=
  let w := rest.takeWhile isRegexSpace
  decide (1 ≤ w.length) && matchTimestamp (rest.drop w.length)

/-- Lazy search for the shortest non-empty capture of `(.+?)` (each captured
character must not be a newline, since `.` does not match newlines) such that
`\s+` plus the timestamp matches afterwards. -/
def captureLoop (acc : List Char) : List Char → Option (List Char)
  | [] => none
  | c :: rest =>
    if c == '\n' then none
    else if afterCaptureOk rest then some (acc ++ [c])
    else captureLoop (acc ++ [c]) rest

/-- Backtracking on the greedy `\s*`: try consuming `j` whitespace characters,
longest first, and for each remainder run the lazy capture search. -/
def tryFromSpaces (rest : List Char) : Nat → Option (List Char)
  | 0 => captureLoop [] rest
  | j + 1 =>
    match captureLoop [] (rest.drop (j + 1)) with
    | some cap => some cap
    | none => tryFromSpaces rest j

/-- Submatch extraction for the database origin pattern
`^Origin:\s*(.+?)\s+<timestamp>` (database.go:161), returning the capture of
group 1 if the line matches. -/
def dbOriginCapture (line : String) : Option (List Char) :=
  let cs := line.toList
  let pre := "Origin:".toList
  if cs.take 7 = pre then
    let rest := cs.drop 7
    tryFromSpaces rest (rest.takeWhile isRegexSpace).length
  else none

/-- Submatch extraction for the validator origin pattern `^Origin:\s+(.+)$`
(validator.go:481), returning the capture of group 1 if the line matches.
The greedy `\s+` explores longer whitespace runs first; the greedy `(.+)`
anchored by `$` must then cover the whole remainder, which must be non-empty
and newline-free. -/
def simpleOriginCapture (line : String) : Option (List Char) :=
  let cs := line.toList
  let pre := "Origin:".toList
  if cs.take 7 = pre then
    let rest := cs.drop 7
    let k := (rest.takeWhile isRegexSpace).length
    (List.range k).findSome? fun i =>
      let j := k - i
      let cap := rest.drop j
      if cap ≠ [] ∧ ¬ cap.contains '\n' then some cap else none
  else none

/-! ## Item model

The Go `Item` struct (database.go:50) after JSON decoding.  A slot of an
inventory (or of a container's contents) is a JSON value: `null`, something
that fails to unmarshal into `Item` (any non-object JSON value, passed
through untouched by the cleaner), or a decoded item.  Unknown object fields
round-trip through the `Extra` bag untouched; no modelled function inspects
them, so they are not represented. -/

/-- One enchantment entry, a JSON object with a `type` field (string, else
`none`) and a `level` field (number, else `none`). -/
structure Ench where
  typ : Option String
  level : Option Int
  deriving Repr, DecidableEq

/-- A JSON number field that may be present with a non-numeric value. -/
inductive JNum where
  | num (n : Int)
  | bad
  deriving Repr, DecidableEq

/-- The `durability` JSON object: optional `damage` and `maxDurability`
fields. -/
structure Dur where
  damage : Option JNum
  maxDurability : Option JNum
  deriving Repr, DecidableEq

mutual
/-- Decoded `Item` (database.go:50): `typeId`, `amount`, `nameTag`, `lore`,
`enchantments`, `durability` (`none` when the JSON object had no parseable
durability map), and `shulker_contents`. -/
inductive Item : Type where
  | mk (typeId : String) (amount : Int) (nameTag : String) (lore : List String)
      (enchantments : List Ench) (durability : Option Dur)
      (shulkerContents : List Slot) : Item
  deriving Repr

/-- A JSON slot value: `null`, a non-object value (unparseable as `Item`,
carried with a tag so distinct blobs stay distinct), or a decoded item. -/
inductive Slot : Type where
  | null : Slot
  | blob (tag : String) : Slot
  | item : Item → Slot
  deriving Repr
end

def Item.typeId : Item → String
  | .mk t _ _ _ _ _ _ => t

def Item.amount : Item → Int
  | .mk _ a _ _ _ _ _ => a

def Item.nameTag : Item → String
  | .mk _ _ n _ _ _ _ => n

def Item.lore : Item → List String
  | .mk _ _ _ l _ _ _ => l

def Item.enchantments : Item → List Ench
  | .mk _ _ _ _ e _ _ => e

def Item.durability : Item → Option Dur
  | .mk _ _ _ _ _ d _ => d

def Item.shulkerContents : Item → List Slot
  | .mk _ _ _ _ _ _ s => s

/-- Replace the `shulker_contents` field (the in-place update performed by
`cleanShulkerContents`). -/
def Item.withContents : Item → List Slot → Item
  | .mk t a n l e d _, s => .mk t a n l e d s

/-- `Item.hasOriginFromServer` (database.go:155): true when some lore line
matches `^Origin:\s*(.+?)\s+<timestamp>` with the trimmed capture equal to
`server`. -/
def Item.hasOriginFromServer (it : Item) (server : String) : Bool :=
  if it.lore.isEmpty then false
  else it.lore.any fun l =>
    match dbOriginCapture l with
    | some cap => goTrimSpace cap = server.toList
    | none => false

/-! ## Origin cascade cleaner (database.go:174 and database.go:460)

`cleanShulkerContents` walks a container's contents: `null` and unparseable
values are passed through, items whose origin matches the target server are
REMOVED (not appended to the rebuilt list), and surviving items are
recursively cleaned.  `cleanInventoryContents` does the same at the top level
of an inventory except that matching items are replaced by `null` instead of
being dropped.  Both return the original data unchanged when nothing
matched. -/

mutual
/-- The loop body of `Item.cleanShulkerContents` (database.go:182): rebuild
the contents list, dropping matching items, returning the rebuilt list and
whether anything changed. -/
def cleanSlotList (server : String) : List Slot → List Slot × Bool
  | [] => ([], false)
  | .null :: rest =>
    let (c, m) := cleanSlotList server rest
    (.null :: c, m)
  | .blob t :: rest =>
    let (c, m) := cleanSlotList server rest
    (.blob t :: c, m)
  | .item it :: rest =>
    if it.hasOriginFromServer server then
      let (c, _) := cleanSlotList server rest
      (c, true)
    else
      let (it', m1) := cleanItemContents server it
      let (c, m2) := cleanSlotList server rest
      (.item it' :: c, m1 || m2)

/-- `Item.cleanShulkerContents` (database.go:174): clean the item's container
contents in place, reporting whether they changed.  Empty contents are a
no-op; the contents field is only replaced when something changed. -/
def cleanItemContents (server : String) : Item → Item × Bool
  | .mk t a n l e d contents =>
    if contents.isEmpty then (.mk t a n l e d contents, false)
    else
      let (cleaned, modified) := cleanSlotList server contents
      if modified then (.mk t a n l e d cleaned, true)
      else (.mk t a n l e d contents, false)
end

/-- Inventory bytes: either bytes that parse as a JSON array of slots, or an
unparseable blob (returned unchanged by the cleaner). -/
inductive InvBytes where
  | json (slots : List Slot)
  | blob (tag : String)
  deriving Repr

/-- The loop body of `DB.cleanInventoryContents` (database.go:471): like the
container cleaner but matching items are replaced by `null` in place. -/
def cleanTopSlots (server : String) : List Slot → List Slot × Bool
  | [] => ([], false)
  | .null :: rest =>
    let (c, m) := cleanTopSlots server rest
    (.null :: c, m)
  | .blob t :: rest =>
    let (c, m) := cleanTopSlots server rest
    (.blob t :: c, m)
  | .item it :: rest =>
    if it.hasOriginFromServer server then
      let (c, _) := cleanTopSlots server rest
      (.null :: c, true)
    else
      let (it', m1) := cleanItemContents server it
      let (c, m2) := cleanTopSlots server rest
      (.item it' :: c, m1 || m2)

/-- `DB.cleanInventoryContents` (database.go:460): parse the inventory bytes
as an array (unparseable data is returned unchanged), clean the slots, and
re-serialize only when something changed. -/
def cleanInventoryContents (inv : InvBytes) (server : String) : InvBytes × Bool :=
  match inv with
  | .blob t => (.blob t, false)
  | .json slots =>
    let (cleaned, modified) := cleanTopSlots server slots
    if modified then (.json cleaned, true) else (.json slots, false)

/-! ## Versioned ledger store (database.go:20) -/

/-- `InventoryEntry` (database.go:21).  `time.Time` is modelled as `Nat`,
with `0` playing the role of the zero `time.Time` (`IsZero`); `time.Now()`
never returns the zero time. -/
structure InventoryEntry where
  inventory : InvBytes
  server : String
  timestamp : Nat
  deriving Repr

/-- A value stored under a player key: a `\x7bentries: [...]\x7d` record, a
legacy bare JSON inventory array, or bytes that are neither (fail both
unmarshals). -/
inductive StoredVal where
  | wrapped (entries : List InventoryEntry)
  | legacy (slots : List Slot)
  | corrupt (tag : String)
  deriving Repr

/-- `ChangeEntry` (database.go:32). -/
structure ChangeEntry where
  player : String
  entry : InventoryEntry
  timestamp : Nat
  deleted : Bool
  deriving Repr

/-- `DB` (database.go:39): the LevelDB table is an association list keyed by
player name (unique keys, iterated in list order), plus the bounded change
log and the closed flag. -/
structure DB where
  store : List (String × StoredVal)
  changeLog : List ChangeEntry
  closed : Bool
  deriving Repr

/-- Replace the value under `key` (first occurrence) or append a new pair —
the effect of `leveldb.Put` on the modelled table. -/
def storePut (key : String) (v : StoredVal) : List (String × StoredVal) →
    List (String × StoredVal)
  | [] => [(key, v)]
  | (k, w) :: rest =>
    if k = key then (k, v) :: rest else (k, w) :: storePut key v rest

/-- Insert an entry into a timestamp-descending list, mirroring one step of
`sort.Slice` with comparator `Timestamp.After` (database.go:276). -/
def insertByTsDesc (e : InventoryEntry) : List InventoryEntry → List InventoryEntry
  | [] => [e]
  | f :: rest =>
    if f.timestamp < e.timestamp then e :: f :: rest else f :: insertByTsDesc e rest

/-- Sort entries newest-first by timestamp (`sort.Slice` with `After`; all
claims below only depend on runs of distinct timestamps, where every
comparison sort agrees). -/
def sortByTsDesc (l : List InventoryEntry) : List InventoryEntry :=
  l.foldr insertByTsDesc []

/-- Trim a change log to its most recent 1000 entries (database.go:300,
database.go:452). -/
def trimLog (log : List ChangeEntry) : List ChangeEntry :=
  if 1000 < log.length then log.drop (log.length - 1000) else log

/-- `DB.Put` (database.go:241): append a new entry for the player, re-sort
newest-first, persist, and log the change.  `now` stands for `time.Now()`
(the Go code calls it twice in close succession; both calls are modelled by
the same instant).  Unmarshal failures on an existing legacy or corrupt
record abort the write. -/
def DB.put (db : DB) (player : String) (inventory : InvBytes) (server : String)
    (now : Nat) : DB × Except DBErr Unit :=
  if db.closed then (db, .error .closed)
  else
    let newEntry : InventoryEntry := ⟨inventory, server, now⟩
    match alookup player db.store with
    | some (.legacy _) => (db, .error .jsonError)
    | some (.corrupt _) => (db, .error .jsonError)
    | found =>
      let entries := match found with
        | some (.wrapped es) => es
        | _ => []
      let sorted := sortByTsDesc (entries ++ [newEntry])
      let log := trimLog (db.changeLog ++ [⟨player, newEntry, now, false⟩])
      (⟨storePut player (.wrapped sorted) db.store, log, db.closed⟩, .ok ())

/-- `DB.Get` (database.go:308): return the newest entry's inventory; legacy
bare-array records are returned as their raw bytes unchanged; corrupt data
surfaces the unmarshal error; an absent player or an empty entry list is
`ErrPlayerNotFound`. -/
def DB.get (db : DB) (player : String) : Except DBErr InvBytes :=
  if db.closed then .error .closed
  else
    match alookup player db.store with
    | none => .error .playerNotFound
    | some (.wrapped []) => .error .playerNotFound
    | some (.wrapped (e :: _)) => .ok e.inventory
    | some (.legacy slots) => .ok (.json slots)
    | some (.corrupt _) => .error .jsonError

/-- `DB.GetPlayerInventories` (database.go:521): all entries of the player's
record. -/
def DB.getPlayerInventories (db : DB) (player : String) :
    Except DBErr (List InventoryEntry) :=
  if db.closed then .error .closed
  else
    match alookup player db.store with
    | none => .error .playerNotFound
    | some (.wrapped es) => .ok es
    | some (.legacy _) => .error .jsonError
    | some (.corrupt _) => .error .jsonError

/-- One step of the `serverTimestamp` scan of `DB.Delete` (database.go:377):
keep the later of the accumulator and an entry's timestamp when the entry is
from `server`. -/
def maxStep (server : String) (acc : Nat) (e : InventoryEntry) : Nat :=
  if e.server = server ∧ acc < e.timestamp then e.timestamp else acc

/-- The `serverTimestamp` computation of `DB.Delete` (database.go:377): the
latest timestamp among the player's entries from `server`, starting from the
zero time. -/
def maxServerTs (entries : List InventoryEntry) (server : String) : Nat :=
  entries.foldl (maxStep server) 0

/-- The per-entry decision of `DB.Delete` (database.go:386): drop entries
from the banned server, drop later entries in force mode, and cascade-clean
the inventories of kept entries. -/
def deleteEntryStep (server : String) (force : Bool) (serverTimestamp : Nat)
    (e : InventoryEntry) : Option (InventoryEntry × Bool) :=
  if e.server = server then none
  else if force ∧ serverTimestamp ≠ 0 ∧ serverTimestamp < e.timestamp then none
  else
    let (cleaned, invModified) := cleanInventoryContents e.inventory server
    some ({ e with inventory := cleaned }, invModified)

/-- The loop of `DB.Delete` over one record's entries, building the kept
(possibly cleaned) entry list in order and the modified flag. -/
def processLoop (server : String) (force : Bool) (serverTimestamp : Nat) :
    List InventoryEntry → List InventoryEntry × Bool
  | [] => ([], false)
  | e :: rest =>
    let (acc, m) := processLoop server force serverTimestamp rest
    match deleteEntryStep server force serverTimestamp e with
    | none => (acc, true)
    | some (e', em) => (e' :: acc, em || m)

/-- The whole per-record loop of `DB.Delete`: the kept (possibly cleaned)
entries and whether anything changed. -/
def processEntries (entries : List InventoryEntry) (server : String)
    (force : Bool) : List InventoryEntry × Bool :=
  processLoop server force (maxServerTs entries server) entries

/-- The effect of `DB.Delete` on one stored value: corrupted and legacy
records fail the `PlayerInventories` unmarshal and are skipped; a record
that changed is re-sorted and rewritten, or removed entirely when no entries
remain. -/
def deleteVal (server : String) (force : Bool) : StoredVal → Option StoredVal
  | .wrapped es =>
    let (kept, modified) := processEntries es server force
    if modified then
      if kept.isEmpty then none else some (.wrapped (sortByTsDesc kept))
    else some (.wrapped es)
  | v => some v

/-- Whether `DB.Delete` logs a deletion marker for this stored value. -/
def deleteLogged (server : String) (force : Bool) : StoredVal → Bool
  | .wrapped es => (processEntries es server force).2
  | _ => false

/-- The batch of deletion markers `DB.Delete` appends to the change log: one
marker per modified player record, in store order (database.go:431). -/
def deleteMarks (store : List (String × StoredVal)) (server : String)
    (force : Bool) : List ChangeEntry :=
  store.filterMap fun (p, v) =>
    if deleteLogged server force v then
      some (⟨p, ⟨.blob "", server, 0⟩, 0, true⟩ : ChangeEntry)
    else none

/-- `DB.Delete` (database.go:351): walk every player record, filter and
cascade-clean it, log a deletion marker per modified player, and trim the
change log once at the end.  The marker carries an entry whose only set field
is `Server` (nil inventory bytes, zero timestamp); the marker's own
`time.Now()` stamp is irrelevant to every claim below and is modelled as
zero. -/
def DB.delete (db : DB) (server : String) (force : Bool) : DB × Except DBErr Unit :=
  if db.closed then (db, .error .closed)
  else
    let store' := db.store.filterMap fun (p, v) =>
      (deleteVal server force v).map (fun v' => (p, v'))
    let newMarks := db.store.filterMap fun (p, v) =>
      if deleteLogged server force v then
        some (⟨p, ⟨.blob "", server, 0⟩, 0, true⟩ : ChangeEntry)
      else none
    (⟨store', trimLog (db.changeLog ++ newMarks), db.closed⟩, .ok ())

/-- `DB.Close` (database.go:623): idempotently mark the store closed. -/
def DB.close (db : DB) : DB × Except DBErr Unit :=
  if db.closed then (db, .ok ())
  else ({ db with closed := true }, .ok ())

/-! ## Provenance validator (validator.go)

Go map literals become association lists; a map read of an absent key yields
the zero value, matching `lookupInt`'s default of `0`. -/

/-- `ValidationError` (fields `Player`, `Server`, `ItemIndex`, `ErrorType`,
`Message`); `ValidateItem` leaves the player and server fields empty. -/
structure ValidationError where
  player : String := ""
  server : String := ""
  itemIndex : Int
  errorType : String
  message : String
  deriving Repr, DecidableEq

/-- Go map read with the integer zero value for absent keys. -/
def lookupInt (m : List (String × Int)) (k : String) : Int :=
  (alookup k m).getD 0

/-- `maxStackSizes` (validator.go:13). -/
def maxStackSizes : List (String × Int) := [
  ("minecraft:diamond", 64), ("minecraft:iron_ingot", 64),
  ("minecraft:gold_ingot", 64), ("minecraft:netherite_ingot", 64),
  ("minecraft:netherite_scrap", 64), ("minecraft:coal", 64),
  ("minecraft:bread", 64), ("minecraft:apple", 64),
  ("minecraft:diamond_sword", 1), ("minecraft:iron_sword", 1),
  ("minecraft:golden_sword", 1), ("minecraft:wooden_sword", 1),
  ("minecraft:stone_sword", 1), ("minecraft:netherite_sword", 1),
  ("minecraft:diamond_pickaxe", 1), ("minecraft:iron_pickaxe", 1),
  ("minecraft:golden_pickaxe", 1), ("minecraft:wooden_pickaxe", 1),
  ("minecraft:stone_pickaxe", 1), ("minecraft:netherite_pickaxe", 1),
  ("minecraft:diamond_axe", 1), ("minecraft:iron_axe", 1),
  ("minecraft:golden_axe", 1), ("minecraft:wooden_axe", 1),
  ("minecraft:stone_axe", 1), ("minecraft:netherite_axe", 1),
  ("minecraft:diamond_shovel", 1), ("minecraft:iron_shovel", 1),
  ("minecraft:golden_shovel", 1), ("minecraft:wooden_shovel", 1),
  ("minecraft:stone_shovel", 1), ("minecraft:netherite_shovel", 1),
  ("minecraft:diamond_hoe", 1), ("minecraft:iron_hoe", 1),
  ("minecraft:golden_hoe", 1), ("minecraft:wooden_hoe", 1),
  ("minecraft:stone_hoe", 1), ("minecraft:netherite_hoe", 1),
  ("minecraft:netherite_helmet", 1), ("minecraft:netherite_chestplate", 1),
  ("minecraft:netherite_leggings", 1), ("minecraft:netherite_boots", 1),
  ("minecraft:bow", 1), ("minecraft:crossbow", 1), ("minecraft:shield", 1),
  ("minecraft:bucket", 16), ("minecraft:water_bucket", 1),
  ("minecraft:lava_bucket", 1), ("minecraft:milk_bucket", 1),
  ("minecraft:ender_pearl", 16), ("minecraft:snowball", 16),
  ("minecraft:egg", 16), ("minecraft:potion", 1),
  ("minecraft:splash_potion", 1), ("minecraft:lingering_potion", 1)]

/-- `maxEnchantmentLevels` (validator.go:80). -/
def maxEnchantmentLevels : List (String × Int) := [
  ("minecraft:sharpness", 5), ("minecraft:smite", 5),
  ("minecraft:bane_of_arthropods", 5), ("minecraft:knockback", 2),
  ("minecraft:fire_aspect", 2), ("minecraft:looting", 3),
  ("minecraft:sweeping", 3), ("minecraft:efficiency", 5),
  ("minecraft:silk_touch", 1), ("minecraft:unbreaking", 3),
  ("minecraft:fortune", 3), ("minecraft:power", 5),
  ("minecraft:punch", 2), ("minecraft:flame", 1),
  ("minecraft:infinity", 1), ("minecraft:luck_of_the_sea", 3),
  ("minecraft:lure", 3), ("minecraft:loyalty", 3),
  ("minecraft:impaling", 5), ("minecraft:riptide", 3),
  ("minecraft:channeling", 1), ("minecraft:multishot", 1),
  ("minecraft:quick_charge", 3), ("minecraft:piercing", 4),
  ("minecraft:mending", 1), ("minecraft:protection", 4),
  ("minecraft:fire_protection", 4), ("minecraft:feather_falling", 4),
  ("minecraft:blast_protection", 4), ("minecraft:projectile_protection", 4),
  ("minecraft:respiration", 3), ("minecraft:aqua_affinity", 1),
  ("minecraft:thorns", 3), ("minecraft:depth_strider", 3),
  ("minecraft:frost_walker", 2), ("minecraft:soul_speed", 3),
  ("minecraft:swift_sneak", 3)]

/-- `incompatibleEnchantments` (validator.go:121). -/
def incompatibleEnchantments : List (String × List String) := [
  ("minecraft:sharpness", ["minecraft:smite", "minecraft:bane_of_arthropods"]),
  ("minecraft:smite", ["minecraft:sharpness", "minecraft:bane_of_arthropods"]),
  ("minecraft:bane_of_arthropods", ["minecraft:sharpness", "minecraft:smite"]),
  ("minecraft:silk_touch", ["minecraft:fortune"]),
  ("minecraft:fortune", ["minecraft:silk_touch"]),
  ("minecraft:infinity", ["minecraft:mending"]),
  ("minecraft:mending", ["minecraft:infinity"]),
  ("minecraft:loyalty", ["minecraft:riptide"]),
  ("minecraft:riptide", ["minecraft:loyalty"]),
  ("minecraft:multishot", ["minecraft:piercing"]),
  ("minecraft:piercing", ["minecraft:multishot"]),
  ("minecraft:protection",
    ["minecraft:fire_protection", "minecraft:blast_protection",
     "minecraft:projectile_protection"]),
  ("minecraft:fire_protection",
    ["minecraft:protection", "minecraft:blast_protection",
     "minecraft:projectile_protection"]),
  ("minecraft:blast_protection",
    ["minecraft:protection", "minecraft:fire_protection",
     "minecraft:projectile_protection"]),
  ("minecraft:projectile_protection",
    ["minecraft:protection", "minecraft:fire_protection",
     "minecraft:blast_protection"]),
  ("minecraft:depth_strider", ["minecraft:frost_walker"]),
  ("minecraft:frost_walker", ["minecraft:depth_strider"])]

/-- `defaultMaxDurability` (validator.go:142). -/
def defaultMaxDurability : List (String × Int) := [
  ("minecraft:diamond_sword", 1561), ("minecraft:iron_sword", 250),
  ("minecraft:golden_sword", 32), ("minecraft:wooden_sword", 59),
  ("minecraft:stone_sword", 131), ("minecraft:netherite_sword", 2031),
  ("minecraft:diamond_pickaxe", 1561), ("minecraft:iron_pickaxe", 250),
  ("minecraft:golden_pickaxe", 32), ("minecraft:wooden_pickaxe", 59),
  ("minecraft:stone_pickaxe", 131), ("minecraft:netherite_pickaxe", 2031),
  ("minecraft:diamond_axe", 1561), ("minecraft:iron_axe", 250),
  ("minecraft:golden_axe", 32), ("minecraft:wooden_axe", 59),
  ("minecraft:stone_axe", 131), ("minecraft:netherite_axe", 2031),
  ("minecraft:diamond_shovel", 1561), ("minecraft:iron_shovel", 250),
  ("minecraft:golden_shovel", 32), ("minecraft:wooden_shovel", 59),
  ("minecraft:stone_shovel", 131), ("minecraft:netherite_shovel", 2031),
  ("minecraft:diamond_hoe", 1561), ("minecraft:iron_hoe", 250),
  ("minecraft:golden_hoe", 32), ("minecraft:wooden_hoe", 59),
  ("minecraft:stone_hoe", 131), ("minecraft:netherite_hoe", 2031),
  ("minecraft:diamond_helmet", 363), ("minecraft:diamond_chestplate", 528),
  ("minecraft:diamond_leggings", 495), ("minecraft:diamond_boots", 429),
  ("minecraft:iron_helmet", 165), ("minecraft:iron_chestplate", 240),
  ("minecraft:iron_leggings", 225), ("minecraft:iron_boots", 195),
  ("minecraft:netherite_helmet", 407), ("minecraft:netherite_chestplate", 592),
  ("minecraft:netherite_leggings", 555), ("minecraft:netherite_boots", 481),
  ("minecraft:bow", 384), ("minecraft:crossbow", 326),
  ("minecraft:shield", 336)]

/-- The loop of `validateEnchantments` (validator.go:329), carrying the loop
index and the `seenEnchantments` map (an association list whose most recent
binding shadows older ones, matching Go map overwrite for lookups). -/
def validateEnchantsAux (itemIndex : Int) :
    List Ench → Int → List (String × Int) → List ValidationError
  | [], _, _ => []
  | e :: rest, enchIdx, seen =>
    match e.typ with
    | none =>
      ⟨"", "", itemIndex, "invalid_enchantment",
        "Enchantment " ++ toString enchIdx ++ " missing type"⟩
        :: validateEnchantsAux itemIndex rest (enchIdx + 1) seen
    | some enchType =>
      match e.level with
      | none =>
        ⟨"", "", itemIndex, "invalid_enchantment",
          "Enchantment " ++ enchType ++ " has invalid level"⟩
          :: validateEnchantsAux itemIndex rest (enchIdx + 1) seen
      | some level =>
        let maxLevel := lookupInt maxEnchantmentLevels enchType
        if maxLevel = 0 then
          ⟨"", "", itemIndex, "unknown_enchantment",
            "Unknown enchantment: " ++ enchType⟩
            :: validateEnchantsAux itemIndex rest (enchIdx + 1) seen
        else
          let levelErrs : List ValidationError :=
            if level ≤ 0 ∨ maxLevel < level then
              [⟨"", "", itemIndex, "invalid_enchantment_level",
                "Enchantment " ++ enchType ++ " level " ++ toString level ++
                  " is invalid (max: " ++ toString maxLevel ++ ")"⟩]
            else []
          let dupErrs : List ValidationError :=
            if (alookup enchType seen).isSome then
              [⟨"", "", itemIndex, "duplicate_enchantment",
                "Duplicate enchantment: " ++ enchType⟩]
            else []
          let seen' := (enchType, level) :: seen
          let incompatErrs : List ValidationError :=
            ((alookup enchType incompatibleEnchantments).getD []).filterMap
              fun inc =>
                if (alookup inc seen').isSome then
                  some ⟨"", "", itemIndex, "incompatible_enchantments",
                    "Incompatible enchantments: " ++ enchType ++ " and " ++ inc⟩
                else none
          levelErrs ++ dupErrs ++ incompatErrs ++
            validateEnchantsAux itemIndex rest (enchIdx + 1) seen'

/-- `validateEnchantments` (validator.go:325). -/
def validateEnchantments (enchantments : List Ench) (itemIndex : Int) :
    List ValidationError :=
  validateEnchantsAux itemIndex enchantments 0 []

/-- `validateDurability` (validator.go:401). -/
def validateDurability (dur : Dur) (itemType : String) (itemIndex : Int) :
    List ValidationError :=
  if dur.damage = none ∧ dur.maxDurability = none then []
  else if dur.damage = some .bad then
    [⟨"", "", itemIndex, "invalid_durability",
      "Durability damage must be a number"⟩]
  else if dur.maxDurability = some .bad then
    [⟨"", "", itemIndex, "invalid_durability",
      "Durability maxDurability must be a number"⟩]
  else
    let damageInt : Int := match dur.damage with
      | some (.num n) => n
      | _ => 0
    let negErrs : List ValidationError :=
      if damageInt < 0 then
        [⟨"", "", itemIndex, "negative_durability",
          "Durability damage cannot be negative: " ++ toString damageInt⟩]
      else []
    match dur.maxDurability with
    | some (.num maxDurInt) =>
      let expected := lookupInt defaultMaxDurability itemType
      let maxErrs : List ValidationError :=
        if 0 < expected ∧ maxDurInt ≠ expected then
          [⟨"", "", itemIndex, "invalid_max_durability",
            "Invalid max durability " ++ toString maxDurInt ++ " for " ++
              itemType ++ " (expected: " ++ toString expected ++ ")"⟩]
        else []
      let exceedErrs : List ValidationError :=
        if maxDurInt < damageInt then
          [⟨"", "", itemIndex, "durability_exceeds_max",
            "Durability damage " ++ toString damageInt ++
              " exceeds max durability " ++ toString maxDurInt⟩]
        else []
      negErrs ++ maxErrs ++ exceedErrs
    | _ => negErrs

/-- The origin server named by a lore list under the validator pattern: the
trimmed capture of the FIRST line matching `^Origin:\s+(.+)$` (the Go loop
breaks at the first match). -/
def validatorOriginServer (lore : List String) : Option String :=
  lore.findSome? fun line =>
    (simpleOriginCapture line).map fun cap => String.mk (goTrimSpace cap)

/-- `validateOrigin` (validator.go:477). -/
def validateOrigin (lore : List String) (server : String) (itemIndex : Int) :
    List ValidationError :=
  match validatorOriginServer lore with
  | none =>
    [⟨"", "", itemIndex, "missing_origin", "Item missing origin lore"⟩]
  | some originServer =>
    if originServer ≠ server then
      [⟨"", "", itemIndex, "wrong_origin",
        "Item origin \x27" ++ originServer ++ "\x27 doesn\x27t match server \x27"
          ++ server ++ "\x27"⟩]
    else []

/-- The stack-size block of `ValidateItem` (validator.go:279): a
non-positive amount is `invalid_amount`; otherwise the amount is checked
against the type's maximum stack size, defaulting to 64 for unknown types. -/
def validateAmountBlock (typeId : String) (amount : Int) (itemIndex : Int) :
    List ValidationError :=
  if amount ≤ 0 then
    [⟨"", "", itemIndex, "invalid_amount", "Item amount must be positive"⟩]
  else
    let ms := lookupInt maxStackSizes typeId
    let maxStack := if ms = 0 then 64 else ms
    if maxStack < amount then
      [⟨"", "", itemIndex, "stack_too_large",
        "Stack size " ++ toString amount ++ " exceeds maximum " ++
          toString maxStack ++ " for " ++ typeId⟩]
    else []

mutual
/-- `ValidateItem` (validator.go:265): missing type is terminal; otherwise
the amount, enchantment, durability, origin and recursive container checks
all run and their error lists are concatenated in order. -/
def ValidateItem : Item → String → Int → List ValidationError
  | .mk typeId amount _ lore ench dur contents, server, itemIndex =>
    if typeId = "" then
      [⟨"", "", itemIndex, "missing_type", "Item missing typeId"⟩]
    else
      let amountErrs := validateAmountBlock typeId amount itemIndex
      let enchErrs :=
        if ench.isEmpty then [] else validateEnchantsAux itemIndex ench 0 []
      let durErrs := match dur with
        | some d => validateDurability d typeId itemIndex
        | none => []
      let originErrs := validateOrigin lore server itemIndex
      let shulkerErrs :=
        if contents.isEmpty then []
        else validateShulkerAux contents server itemIndex 0
      amountErrs ++ enchErrs ++ durErrs ++ originErrs ++ shulkerErrs

/-- `validateShulkerContents` (validator.go:511): null slots are skipped,
unparseable contents are reported, nested items are validated recursively
with their messages relabelled with the slot position. -/
def validateShulkerAux : List Slot → String → Int → Int → List ValidationError
  | [], _, _, _ => []
  | .null :: rest, server, parentIndex, i =>
    validateShulkerAux rest server parentIndex (i + 1)
  | .blob _ :: rest, server, parentIndex, i =>
    ⟨"", "", parentIndex, "invalid_shulker_content",
      "Shulker slot " ++ toString i ++ " contains unparseable item"⟩
      :: validateShulkerAux rest server parentIndex (i + 1)
  | .item it :: rest, server, parentIndex, i =>
    ((ValidateItem it server parentIndex).map fun err =>
      { err with message := "Shulker slot " ++ toString i ++ ": " ++ err.message })
      ++ validateShulkerAux rest server parentIndex (i + 1)
end

/-- `ItemValidator.HasOriginFromServer` (validator.go:574): the validator
package's own origin test, using the simple pattern without a timestamp. -/
def validatorHasOriginFromServer (it : Item) (server : String) : Bool :=
  if it.lore.isEmpty then false
  else it.lore.any fun l =>
    match simpleOriginCapture l with
    | some cap => goTrimSpace cap = server.toList
    | none => false

/-! ## Derived forms used in the statements -/

/-- The `ErrorType` projection of a list of validation errors. -/
def errorTypes (l : List ValidationError) : List String :=
  l.map (·.errorType)

mutual
/-- Closed form of the cascade cleaner on one item: its container contents
are cleaned recursively, all other fields are untouched. -/
def cascadeCleanItem (server : String) : Item → Item
  | .mk t a n l e d contents => .mk t a n l e d (cascadeCleanList server contents)

/-- Closed form of the cascade cleaner inside container contents: matching
items are REMOVED from the list, other slots survive in order (items with
their own contents cleaned recursively). -/
def cascadeCleanList (server : String) : List Slot → List Slot
  | [] => []
  | .null :: rest => .null :: cascadeCleanList server rest
  | .blob t :: rest => .blob t :: cascadeCleanList server rest
  | .item it :: rest =>
    if it.hasOriginFromServer server then cascadeCleanList server rest
    else .item (cascadeCleanItem server it) :: cascadeCleanList server rest
end

/-- Closed form of the cascade cleaner on a top-level inventory: matching
items are replaced by `null` IN PLACE, so positions and length are
preserved. -/
def cascadeCleanTop (server : String) (l : List Slot) : List Slot :=
  l.map fun s => match s with
    | .null => .null
    | .blob t => .blob t
    | .item it =>
      if it.hasOriginFromServer server then .null
      else .item (cascadeCleanItem server it)

/-- The effect of `DB.Delete` on one kept entry: its inventory is replaced by
the cascade-cleaned inventory (which equals the original when nothing
matched). -/
def cleanEntryFn (server : String) (e : InventoryEntry) : InventoryEntry :=
  { e with inventory := (cleanInventoryContents e.inventory server).1 }

/-- The entries stored for a player (empty for an absent, legacy or corrupt
record). -/
def entriesOf (db : DB) (player : String) : List InventoryEntry :=
  match alookup player db.store with
  | some (.wrapped es) => es
  | _ => []

/-- The player's stored value, if any, unmarshals as a `PlayerInventories`
record — the precondition for `Put` to succeed on an open store. -/
def recOkAt (db : DB) (player : String) : Prop :=
  match alookup player db.store with
  | none => True
  | some (.wrapped _) => True
  | _ => False

/-- One `Put` call: the inventory bytes, the originating server, and the
instant `time.Now()` returns during the call. -/
structure PutCall where
  inventory : InvBytes
  server : String
  time : Nat

/-- Run a sequence of `Put` calls for one player, threading the store. -/
def runPuts (db : DB) (player : String) : List PutCall → DB
  | [] => db
  | c :: rest => runPuts (db.put player c.inventory c.server c.time).1 player rest

/-! ## Legality predicates for the validator round-trip claim

These are the spec-side notion of a fully legal item; each conjunct mirrors
one validation rule. -/

/-- One legal enchantment entry: well-typed, known id, level within
bounds. -/
def legalEnchEntry (e : Ench) : Bool :=
  match e.typ, e.level with
  | some t, some lv =>
    decide (lookupInt maxEnchantmentLevels t ≠ 0) &&
      decide (0 < lv) && decide (lv ≤ lookupInt maxEnchantmentLevels t)
  | _, _ => false

/-- The enchantment ids carried by a list of entries. -/
def enchTypesOf (es : List Ench) : List String :=
  es.filterMap (·.typ)

/-- A legal enchantment list: every entry legal, no id repeated, and no later
entry incompatible with an earlier one. -/
def legalEnchList (es : List Ench) : Bool :=
  es.all legalEnchEntry && decide (enchTypesOf es).Nodup &&
    decide ((enchTypesOf es).Pairwise fun a b =>
      ((alookup b incompatibleEnchantments).getD []).contains a = false)

/-- A legal durability block for the item type: numeric fields, non-negative
damage not exceeding the maximum, and the canonical maximum for known
types. -/
def legalDur (itemType : String) (d : Dur) : Bool :=
  let expected := lookupInt defaultMaxDurability itemType
  match d.damage, d.maxDurability with
  | none, none => true
  | some (.num dmg), none => decide (0 ≤ dmg)
  | none, some (.num md) =>
    (decide (expected = 0) || decide (md = expected)) && decide (0 ≤ md)
  | some (.num dmg), some (.num md) =>
    decide (0 ≤ dmg) && (decide (expected = 0) || decide (md = expected)) &&
      decide (dmg ≤ md)
  | _, _ => false

/-- The amount is positive and within the type's maximum stack size. -/
def legalAmount (typeId : String) (a : Int) : Bool :=
  let ms := lookupInt maxStackSizes typeId
  let maxStack := if ms = 0 then 64 else ms
  decide (0 < a) && decide (a ≤ maxStack)

/-- Exactly one lore line matches the validator origin pattern, and it names
`server`. -/
def legalOrigin (lore : List String) (server : String) : Bool :=
  decide ((lore.filter fun l => (simpleOriginCapture l).isSome).length = 1) &&
    decide (validatorOriginServer lore = some server)

mutual
/-- A fully legal item for `server`: non-empty type, legal amount,
enchantments, durability and origin, and recursively legal container
contents. -/
def legalItem (server : String) : Item → Bool
  | .mk t a _ lore ench dur contents =>
    decide (t ≠ "") && legalAmount t a && legalEnchList ench &&
      (match dur with
        | some d => legalDur t d
        | none => true) &&
      legalOrigin lore server && legalSlots server contents

/-- Legal container contents: empty slots are fine, unparseable values are
not, items must be recursively legal. -/
def legalSlots (server : String) : List Slot → Bool
  | [] => true
  | .null :: rest => legalSlots server rest
  | .blob _ :: _ => false
  | .item it :: rest => legalItem server it && legalSlots server rest
end

/-! ## Basic lemmas -/

theorem trimLog_length_le (l : List ChangeEntry) : (trimLog l).length ≤ 1000 := by
  unfold trimLog
  split
  · rw [List.length_drop]
    omega
  · omega

theorem trimLog_suffix (l : List ChangeEntry) : (trimLog l).IsSuffix l := by
  unfold trimLog
  split
  · exact List.drop_suffix _ _
  · exact List.suffix_rfl

theorem alookup_cons {beta : Type} (key k : String) (v : beta) (rest) :
    alookup key ((k, v) :: rest) =
      if k = key then some v else alookup key rest := rfl

theorem alookup_mem {beta : Type} {key : String} {v : beta} :
    ∀ {l : List (String × beta)}, alookup key l = some v → (key, v) ∈ l := by
  intro l
  induction l with
  | nil => intro h; cases h
  | cons kw rest ih =>
    obtain ⟨k, w⟩ := kw
    intro h
    rw [alookup_cons] at h
    by_cases hk : k = key
    · rw [if_pos hk] at h
      cases h
      subst hk
      exact List.mem_cons_self _ _
    · rw [if_neg hk] at h
      exact List.mem_cons_of_mem _ (ih h)

theorem storePut_alookup (key : String) (v : StoredVal) :
    ∀ l : List (String × StoredVal), alookup key (storePut key v l) = some v := by
  intro l
  induction l with
  | nil => simp [storePut, alookup]
  | cons kw rest ih =>
    obtain ⟨k, w⟩ := kw
    unfold storePut
    by_cases h : k = key
    · rw [if_pos h]
      simp [alookup, h]
    · rw [if_neg h]
      rw [alookup_cons, if_neg h]
      exact ih

theorem insertByTsDesc_cons (e f : InventoryEntry) (rest : List InventoryEntry) :
    insertByTsDesc e (f :: rest) =
      if f.timestamp < e.timestamp then e :: f :: rest
      else f :: insertByTsDesc e rest := rfl

theorem insertByTsDesc_perm (e : InventoryEntry) (l : List InventoryEntry) :
    List.Perm (insertByTsDesc e l) (e :: l) := by
  induction l with
  | nil => exact List.Perm.refl _
  | cons f rest ih =>
    rw [insertByTsDesc_cons]
    split
    · exact List.Perm.refl _
    · exact (ih.cons f).trans (List.Perm.swap e f rest)

theorem sortByTsDesc_perm (l : List InventoryEntry) :
    List.Perm (sortByTsDesc l) l := by
  induction l with
  | nil => exact List.Perm.refl _
  | cons e rest ih =>
    exact (insertByTsDesc_perm e (sortByTsDesc rest)).trans (ih.cons e)

theorem sortByTsDesc_append_max (es : List InventoryEntry) (e : InventoryEntry)
    (h : ∀ f ∈ es, f.timestamp < e.timestamp) :
    sortByTsDesc (es ++ [e]) = e :: sortByTsDesc es := by
  induction es with
  | nil => rfl
  | cons f rest ih =>
    have hf : f.timestamp < e.timestamp := h f (List.mem_cons_self f rest)
    have hrest : ∀ g ∈ rest, g.timestamp < e.timestamp := fun g hg =>
      h g (List.mem_cons_of_mem f hg)
    show insertByTsDesc f (sortByTsDesc (rest ++ [e])) = _
    rw [ih hrest, insertByTsDesc_cons, if_neg (by omega)]
    rfl

/-! ## Cascade-cleaner agreement lemmas

The imperative cleaner (`cleanSlotList`, `cleanItemContents`,
`cleanTopSlots`) agrees with its closed form, and an unmodified result is
the input itself. -/

mutual
theorem cleanSlotList_eq (server : String) : ∀ l : List Slot,
    (cleanSlotList server l).1 = cascadeCleanList server l ∧
    ((cleanSlotList server l).2 = false → cascadeCleanList server l = l)
  | [] => by simp [cleanSlotList, cascadeCleanList]
  | .null :: rest => by
    have ih := cleanSlotList_eq server rest
    simp only [cleanSlotList, cascadeCleanList]
    constructor
    · simp [ih.1]
    · intro h
      simp only [h] at ih ⊢
      simp [ih.2 trivial]
  | .blob t :: rest => by
    have ih := cleanSlotList_eq server rest
    simp only [cleanSlotList, cascadeCleanList]
    constructor
    · simp [ih.1]
    · intro h
      simp only [h] at ih ⊢
      simp [ih.2 trivial]
  | .item it :: rest => by
    have ih := cleanSlotList_eq server rest
    have ihit := cleanItemContents_eq server it
    simp only [cleanSlotList, cascadeCleanList]
    by_cases h : it.hasOriginFromServer server
    · simp [h, ih.1]
    · simp only [h, Bool.false_eq_true, if_false, ite_false]
      constructor
      · simp [ih.1, ihit.1]
      · intro hm
        have h1 : (cleanItemContents server it).2 = false := by
          cases h1 : (cleanItemContents server it).2 <;>
            simp [h1] at hm ⊢
        have h2 : (cleanSlotList server rest).2 = false := by
          cases h2 : (cleanSlotList server rest).2 <;>
            simp [h1, h2] at hm ⊢
        rw [ih.2 h2, ihit.2 h1]

theorem cleanItemContents_eq (server : String) : ∀ it : Item,
    (cleanItemContents server it).1 = cascadeCleanItem server it ∧
    ((cleanItemContents server it).2 = false → cascadeCleanItem server it = it)
  | .mk t a n lo e d contents => by
    have ih := cleanSlotList_eq server contents
    simp only [cleanItemContents, cascadeCleanItem]
    by_cases hc : contents.isEmpty
    · have : contents = [] := by
        cases contents <;> simp_all [List.isEmpty]
      subst this
      simp [cascadeCleanList]
    · simp only [hc, Bool.false_eq_true, if_false, ite_false]
      by_cases hm : (cleanSlotList server contents).2
      · simp [hm, ih.1]
      · have hm' : (cleanSlotList server contents).2 = false := by
          simpa using hm
        simp [hm', ih.2 hm']
end

theorem cleanTopSlots_eq (server : String) (l : List Slot) :
    (cleanTopSlots server l).1 = cascadeCleanTop server l ∧
    ((cleanTopSlots server l).2 = false → cascadeCleanTop server l = l) := by
  induction l with
  | nil => simp [cleanTopSlots, cascadeCleanTop]
  | cons s rest ih =>
    cases s with
    | null =>
      simp only [cleanTopSlots, cascadeCleanTop, List.map_cons]
      constructor
      · simpa [cascadeCleanTop] using ih.1
      · intro h
        simp only [h] at ih ⊢
        simpa [cascadeCleanTop] using ih.2 trivial
    | blob t =>
      simp only [cleanTopSlots, cascadeCleanTop, List.map_cons]
      constructor
      · simpa [cascadeCleanTop] using ih.1
      · intro h
        simp only [h] at ih ⊢
        simpa [cascadeCleanTop] using ih.2 trivial
    | item it =>
      have ihit := cleanItemContents_eq server it
      simp only [cleanTopSlots, cascadeCleanTop, List.map_cons]
      by_cases h : it.hasOriginFromServer server
      · simpa [h, cascadeCleanTop] using ih.1
      · simp only [h, Bool.false_eq_true, if_false, ite_false]
        constructor
        · simpa [cascadeCleanTop, ihit.1] using ih.1
        · intro hm
          have h1 : (cleanItemContents server it).2 = false := by
            cases h1 : (cleanItemContents server it).2 <;>
              simp [h1] at hm ⊢
          have h2 : (cleanTopSlots server rest).2 = false := by
            cases h2 : (cleanTopSlots server rest).2 <;>
              simp [h1, h2] at hm ⊢
          simp only [h2] at ih
          simpa [cascadeCleanTop, ihit.2 h1] using ih.2 trivial

theorem cleanInventoryContents_json (server : String) (l : List Slot) :
    (cleanInventoryContents (.json l) server).1 = .json (cascadeCleanTop server l) := by
  have h := cleanTopSlots_eq server l
  unfold cleanInventoryContents
  by_cases hm : (cleanTopSlots server l).2
  · simp [hm, h.1]
  · have hm' : (cleanTopSlots server l).2 = false := by simpa using hm
    simp [hm', h.2 hm']

/-! ## Characterizations of the store operations -/

/-- `Put` either fails on a closed store, fails to unmarshal a legacy or
corrupt record, or appends the new entry, re-sorts, persists and logs. -/
theorem put_cases (db : DB) (player : String) (inv : InvBytes) (server : String)
    (now : Nat) :
    db.put player inv server now = (db, .error .closed) ∨
    db.put player inv server now = (db, .error .jsonError) ∨
    db.put player inv server now =
      (⟨storePut player
          (.wrapped (sortByTsDesc (entriesOf db player ++ [⟨inv, server, now⟩])))
          db.store,
        trimLog (db.changeLog ++ [⟨player, ⟨inv, server, now⟩, now, false⟩]),
        db.closed⟩, .ok ()) := by
  unfold DB.put entriesOf
  by_cases hc : db.closed
  · left
    rw [if_pos hc]
  · rw [if_neg hc]
    cases hl : alookup player db.store with
    | none => right; right; rfl
    | some v =>
      cases v with
      | wrapped es => right; right; rfl
      | legacy s => right; left; rfl
      | corrupt t => right; left; rfl

/-- On an open store whose existing record for the player (if any) is a
proper `PlayerInventories` record, `Put` succeeds with the appended, sorted
record. -/
theorem put_of_open_recOk (db : DB) (player : String) (inv : InvBytes)
    (server : String) (now : Nat) (hc : db.closed = false)
    (hr : recOkAt db player) :
    db.put player inv server now =
      (⟨storePut player
          (.wrapped (sortByTsDesc (entriesOf db player ++ [⟨inv, server, now⟩])))
          db.store,
        trimLog (db.changeLog ++ [⟨player, ⟨inv, server, now⟩, now, false⟩]),
        false⟩, .ok ()) := by
  unfold recOkAt at hr
  unfold DB.put entriesOf
  rw [if_neg (by rw [hc]; exact Bool.false_ne_true), hc]
  cases hl : alookup player db.store with
  | none => rfl
  | some v =>
    cases v with
    | wrapped es => rfl
    | legacy s =>
      rw [hl] at hr
      exact False.elim hr
    | corrupt t =>
      rw [hl] at hr
      exact False.elim hr

/-! ## Claim C1 -/

/-- The spec scenario items: a sword tagged `Origin: srv1`, and a container
from `srv2` holding a diamond tagged `Origin: srv1`. -/
def c1Sword : Item := .mk "sword" 1 "" ["Origin: srv1"] [] none []

def c1Diamond : Item := .mk "diamond" 10 "" ["Origin: srv1"] [] none []

def c1Box : Item :=
  .mk "shulker_box" 1 "" ["Origin: srv2"] [] none [.item c1Diamond]

/-- A store holding that inventory as a kept entry (stored by `srv2`). -/
def c1Db : DB :=
  ⟨[("alice", .wrapped [⟨.json [.item c1Sword, .item c1Box], "srv2", 5⟩])],
    [], false⟩

/-- C1: the claim (and spec §8, and the repository's own tests) require
`Delete("srv1", false)` to remove the sword and the nested diamond, but the
code leaves the whole store byte-for-byte unchanged: `hasOriginFromServer`
in database.go only matches lore of the form `Origin: <server> <timestamp>`,
so the plain `Origin: srv1` tags produced everywhere else in the repository
(validator.go's `AddOriginToItem`, every test fixture) never match.  The
validator's own origin test recognises the very same sword as originating
from `srv1`. -/
theorem c1_delete_leaves_spec_items_in_place :
    c1Db.delete "srv1" false = (c1Db, .ok ()) ∧
    c1Sword.hasOriginFromServer "srv1" = false ∧
    c1Diamond.hasOriginFromServer "srv1" = false ∧
    validatorHasOriginFromServer c1Sword "srv1" = true ∧
    validatorHasOriginFromServer c1Diamond "srv1" = true := by
  refine ⟨rfl, rfl, rfl, rfl, rfl⟩

/-! ## Claim C6 -/

/-- C6: on an open store, `Get` of a player whose stored value is a legacy
bare-array record succeeds and returns the stored bytes unchanged. -/
theorem c6_get_legacy_returns_raw (db : DB) (player : String)
    (slots : List Slot) (hopen : db.closed = false)
    (hlook : alookup player db.store = some (.legacy slots)) :
    db.get player = .ok (.json slots) := by
  unfold DB.get
  rw [if_neg (by rw [hopen]; exact Bool.false_ne_true), hlook]

/-- Witness for C6 at a concrete store. -/
theorem c6_get_legacy_returns_raw_witness :
    (⟨[("p", .legacy [.null, .blob "7"])], [], false⟩ : DB).get "p" =
      .ok (.json [.null, .blob "7"]) :=
  c6_get_legacy_returns_raw ⟨[("p", .legacy [.null, .blob "7"])], [], false⟩
    "p" [.null, .blob "7"] rfl rfl

/-! ## Claim C8 -/

/-- C8: `Close` is idempotent — after the first call the store is closed and
a repeated call returns ok leaving the state untouched — and on the closed
store `Put`, `Get`, `GetPlayerInventories` and `Delete` all fail with the
`Closed` error and leave the state untouched. -/
theorem c8_close_idempotent_and_closed_ops_fail (db : DB) (player : String)
    (inv : InvBytes) (server : String) (now : Nat) (force : Bool) :
    (db.close).1.closed = true ∧
    (db.close).2 = .ok () ∧
    (db.close).1.close = ((db.close).1, .ok ()) ∧
    (db.close).1.put player inv server now = ((db.close).1, .error .closed) ∧
    (db.close).1.get player = .error .closed ∧
    (db.close).1.getPlayerInventories player = .error .closed ∧
    (db.close).1.delete server force = ((db.close).1, .error .closed) := by
  have hclosed : (db.close).1.closed = true := by
    unfold DB.close
    by_cases h : db.closed
    · rw [if_pos h]
      exact h
    · rw [if_neg h]
  have hok : (db.close).2 = .ok () := by
    unfold DB.close
    by_cases h : db.closed
    · rw [if_pos h]
    · rw [if_neg h]
  have hclose : ∀ d : DB, d.closed = true → d.close = (d, .ok ()) := by
    intro d h
    unfold DB.close
    rw [if_pos h]
  have hput : ∀ d : DB, d.closed = true →
      d.put player inv server now = (d, .error .closed) := by
    intro d h
    unfold DB.put
    rw [if_pos h]
  have hget : ∀ d : DB, d.closed = true → d.get player = .error .closed := by
    intro d h
    unfold DB.get
    rw [if_pos h]
  have hgpi : ∀ d : DB, d.closed = true →
      d.getPlayerInventories player = .error .closed := by
    intro d h
    unfold DB.getPlayerInventories
    rw [if_pos h]
  have hdel : ∀ d : DB, d.closed = true →
      d.delete server force = (d, .error .closed) := by
    intro d h
    unfold DB.delete
    rw [if_pos h]
  exact ⟨hclosed, hok, hclose _ hclosed, hput _ hclosed, hget _ hclosed,
    hgpi _ hclosed, hdel _ hclosed⟩

/-! ## Claim C7 -/

/-- C7: a completed `Put` leaves the change log with at most 1000 entries and
the log is a suffix of the previous log extended by the new change (so any
eviction drops oldest entries first); a completed `Delete` leaves the log
equal to the trimmed previous log extended by exactly its batch of deletion
markers (`deleteMarks`, one marker per modified player record in store
order), hence also ≤ 1000 entries and a suffix of old ++ markers: only the
oldest entries are evicted. -/
theorem c7_changelog_bounded (db : DB) (player : String) (inv : InvBytes)
    (server : String) (now : Nat) (sv : String) (force : Bool) :
    ((db.put player inv server now).2 = .ok () →
      (db.put player inv server now).1.changeLog.length ≤ 1000 ∧
      ((db.put player inv server now).1.changeLog).IsSuffix
        (db.changeLog ++ [⟨player, ⟨inv, server, now⟩, now, false⟩])) ∧
    ((db.delete sv force).2 = .ok () →
      (db.delete sv force).1.changeLog.length ≤ 1000 ∧
      (db.delete sv force).1.changeLog =
        trimLog (db.changeLog ++ deleteMarks db.store sv force) ∧
      ((db.delete sv force).1.changeLog).IsSuffix
        (db.changeLog ++ deleteMarks db.store sv force)) := by
  constructor
  · intro hok
    rcases put_cases db player inv server now with h | h | h
    · rw [h] at hok
      cases hok
    · rw [h] at hok
      cases hok
    · rw [h]
      exact ⟨trimLog_length_le _, trimLog_suffix _⟩
  · intro hok
    unfold DB.delete at hok ⊢
    by_cases hc : db.closed
    · rw [if_pos hc] at hok
      cases hok
    · rw [if_neg hc]
      exact ⟨trimLog_length_le _, rfl, trimLog_suffix _⟩

/-- Witness for C7 at a concrete store holding one record from server `x`:
a completed `Put` keeps the bound, and a completed `Delete` of `x` (which
logs a marker for the modified player `p`) leaves the change log equal to
the trimmed old log extended by exactly its deletion-marker batch. -/
theorem c7_changelog_bounded_witness :
    ((⟨[("p", .wrapped [⟨.json [], "x", 1⟩])], [], false⟩ : DB).put "p"
      (.json []) "s" 2).1.changeLog.length ≤ 1000 ∧
    ((⟨[("p", .wrapped [⟨.json [], "x", 1⟩])], [], false⟩ : DB).delete "x"
      false).1.changeLog.length ≤ 1000 ∧
    ((⟨[("p", .wrapped [⟨.json [], "x", 1⟩])], [], false⟩ : DB).delete "x"
      false).1.changeLog =
      trimLog (([] : List ChangeEntry) ++
        deleteMarks [("p", .wrapped [⟨.json [], "x", 1⟩])] "x" false) := by
  obtain ⟨h1, h2⟩ := c7_changelog_bounded
    ⟨[("p", .wrapped [⟨.json [], "x", 1⟩])], [], false⟩ "p" (.json []) "s" 2
    "x" false
  obtain ⟨hb, he, _⟩ := h2 rfl
  exact ⟨(h1 rfl).1, hb, he⟩

/-! ## Claim C2 -/

theorem cascadeCleanList_eq_filterMap (server : String) (l : List Slot) :
    cascadeCleanList server l = l.filterMap (fun s => match s with
      | .null => some .null
      | .blob t => some (.blob t)
      | .item it => if it.hasOriginFromServer server then none
                    else some (.item (cascadeCleanItem server it))) := by
  induction l with
  | nil => rfl
  | cons s rest ih =>
    cases s with
    | null => simp [cascadeCleanList, List.filterMap_cons, ih]
    | blob t => simp [cascadeCleanList, List.filterMap_cons, ih]
    | item it =>
      by_cases h : it.hasOriginFromServer server
      · simp [cascadeCleanList, List.filterMap_cons, h, ih]
      · simp [cascadeCleanList, List.filterMap_cons, h, ih]

/-- A nested matching item (with the timestamped origin lore the database
pattern requires) inside a non-matching container, next to a non-matching
sibling. -/
def c2Diamond : Item :=
  .mk "diamond" 10 "" ["Origin: srv1 2024-01-02T03:04:05"] [] none []

def c2Gold : Item := .mk "gold_ingot" 20 "" ["Origin: srv2"] [] none []

def c2Box : Item :=
  .mk "shulker_box" 1 "" ["Origin: srv2"] [] none [.item c2Diamond, .item c2Gold]

/-- C2 is false as stated: cleaning `srv1` out of an inventory holding the
container removes the matching nested item from the container's contents
list — the list shrinks from two slots to one and no `null` is left in its
place — instead of nulling that slot and keeping the list length. -/
theorem c2_nested_slot_removed_not_nulled :
    cleanInventoryContents (.json [.item c2Box]) "srv1" =
      (.json [.item (.mk "shulker_box" 1 "" ["Origin: srv2"] [] none
        [.item c2Gold])], true) ∧
    c2Diamond.hasOriginFromServer "srv1" = true ∧
    (Item.mk "shulker_box" 1 "" ["Origin: srv2"] [] none
      [.item c2Gold]).shulkerContents.length = 1 ∧
    c2Box.shulkerContents.length = 2 :=
  ⟨rfl, rfl, rfl, rfl⟩

/-- C2 (amended): at the TOP level the cleaner nulls exactly the slots whose
item carries a (timestamped) origin tag naming the target server, in place —
positions and length are preserved, and non-matching slots only have their
own container contents cleaned.  INSIDE container contents, matching items
are removed outright (the contents list shrinks); surviving siblings keep
their relative order and are cleaned recursively. -/
theorem c2_cascade_clean_characterization (server : String) (l : List Slot) :
    (cleanInventoryContents (.json l) server).1 = .json (cascadeCleanTop server l) ∧
    (cascadeCleanTop server l).length = l.length ∧
    cascadeCleanTop server l = l.map (fun s => match s with
      | .null => .null
      | .blob t => .blob t
      | .item it => if it.hasOriginFromServer server then .null
                    else .item (cascadeCleanItem server it)) ∧
    (∀ it : Item, (cleanItemContents server it).1 = cascadeCleanItem server it) ∧
    cascadeCleanList server l = l.filterMap (fun s => match s with
      | .null => some .null
      | .blob t => some (.blob t)
      | .item it => if it.hasOriginFromServer server then none
                    else some (.item (cascadeCleanItem server it))) :=
  ⟨cleanInventoryContents_json server l, by simp [cascadeCleanTop], rfl,
    fun it => (cleanItemContents_eq server it).1,
    cascadeCleanList_eq_filterMap server l⟩

/-! ## Deletion lemmas -/

theorem cleanInventoryContents_not_modified (inv : InvBytes) (server : String)
    (h : (cleanInventoryContents inv server).2 = false) :
    (cleanInventoryContents inv server).1 = inv := by
  cases inv with
  | blob t => rfl
  | json slots =>
    simp only [cleanInventoryContents] at h ⊢
    by_cases hm : (cleanTopSlots server slots).2
    · rw [if_pos hm] at h
      simp at h
    · rw [if_neg hm]

theorem deleteEntryStep_elim (server : String) (force : Bool) (ts : Nat)
    (e e' : InventoryEntry) (em : Bool)
    (h : deleteEntryStep server force ts e = some (e', em)) :
    e.server ≠ server ∧ e' = cleanEntryFn server e ∧
    em = (cleanInventoryContents e.inventory server).2 ∧
    (force = true → ts ≠ 0 → e.timestamp ≤ ts) := by
  unfold deleteEntryStep at h
  by_cases h1 : e.server = server
  · rw [if_pos h1] at h
    cases h
  · rw [if_neg h1] at h
    by_cases h2 : force = true ∧ ts ≠ 0 ∧ ts < e.timestamp
    · rw [if_pos (by simpa using h2)] at h
      cases h
    · rw [if_neg (by simpa using h2)] at h
      have h3 : (cleanEntryFn server e,
          (cleanInventoryContents e.inventory server).2) = (e', em) :=
        Option.some.inj h
      refine ⟨h1, (congrArg Prod.fst h3).symm, (congrArg Prod.snd h3).symm, ?_⟩
      intro hf hts
      by_contra hlt
      exact h2 ⟨hf, hts, by omega⟩

theorem deleteEntryStep_of_ne (server : String) (force : Bool) (ts : Nat)
    (e : InventoryEntry) (h1 : e.server ≠ server)
    (h2 : ¬ (force = true ∧ ts ≠ 0 ∧ ts < e.timestamp)) :
    deleteEntryStep server force ts e =
      some (cleanEntryFn server e, (cleanInventoryContents e.inventory server).2) := by
  unfold deleteEntryStep cleanEntryFn
  rw [if_neg h1, if_neg (by simpa using h2)]

theorem processLoop_cons (server : String) (force : Bool) (ts : Nat)
    (e : InventoryEntry) (rest : List InventoryEntry) :
    processLoop server force ts (e :: rest) =
      match deleteEntryStep server force ts e with
      | none => ((processLoop server force ts rest).1, true)
      | some (e', em) =>
        (e' :: (processLoop server force ts rest).1,
          em || (processLoop server force ts rest).2) := by
  simp only [processLoop]

theorem processLoop_fst (server : String) (force : Bool) (ts : Nat) :
    ∀ l : List InventoryEntry,
      (processLoop server force ts l).1 =
        l.filterMap fun e => (deleteEntryStep server force ts e).map Prod.fst := by
  intro l
  induction l with
  | nil => rfl
  | cons e rest ih =>
    rw [processLoop_cons, List.filterMap_cons]
    cases hstep : deleteEntryStep server force ts e with
    | none => simpa using ih
    | some p =>
      obtain ⟨e', em⟩ := p
      simpa using ih

theorem processLoop_not_modified (server : String) (force : Bool) (ts : Nat) :
    ∀ l : List InventoryEntry, (processLoop server force ts l).2 = false →
      (processLoop server force ts l).1 = l := by
  intro l
  induction l with
  | nil => intro _; rfl
  | cons e rest ih =>
    intro h
    rw [processLoop_cons] at h ⊢
    cases hstep : deleteEntryStep server force ts e with
    | none =>
      rw [hstep] at h
      simp at h
    | some p =>
      obtain ⟨e', em⟩ := p
      rw [hstep] at h
      simp only at h
      obtain ⟨hem, hm⟩ := Bool.or_eq_false_iff.mp h
      obtain ⟨hne, he', hem', _⟩ := deleteEntryStep_elim server force ts e e' em hstep
      have hee : e' = e := by
        rw [he']
        unfold cleanEntryFn
        rw [cleanInventoryContents_not_modified e.inventory server
          (by rw [← hem', hem])]
      show e' :: (processLoop server force ts rest).1 = e :: rest
      rw [hee, ih hm]

theorem maxStep_ge_acc (server : String) (acc : Nat) (e : InventoryEntry) :
    acc ≤ maxStep server acc e := by
  unfold maxStep
  split <;> omega

theorem foldl_maxStep_ge_acc (server : String) :
    ∀ (l : List InventoryEntry) (acc : Nat),
      acc ≤ l.foldl (maxStep server) acc := by
  intro l
  induction l with
  | nil => intro acc; exact Nat.le_refl acc
  | cons e rest ih =>
    intro acc
    exact Nat.le_trans (maxStep_ge_acc server acc e) (ih _)

theorem maxServerTs_ge (server : String) :
    ∀ (l : List InventoryEntry) (acc : Nat) (e : InventoryEntry),
      e ∈ l → e.server = server → e.timestamp ≤ l.foldl (maxStep server) acc := by
  intro l
  induction l with
  | nil => intro acc e he; cases he
  | cons f rest ih =>
    intro acc e he hs
    rcases List.mem_cons.mp he with rfl | hmem
    · refine Nat.le_trans ?_ (foldl_maxStep_ge_acc server rest (maxStep server acc e))
      unfold maxStep
      by_cases hlt : acc < e.timestamp
      · rw [if_pos ⟨hs, hlt⟩]
      · rw [if_neg (by intro hc; exact hlt hc.2)]
        omega
    · exact ih _ e hmem hs

theorem maxServerTs_zero_of_absent (server : String) :
    ∀ l : List InventoryEntry, (∀ e ∈ l, e.server ≠ server) →
      l.foldl (maxStep server) 0 = 0 := by
  intro l
  induction l with
  | nil => intro _; rfl
  | cons f rest ih =>
    intro h
    have hf : f.server ≠ server := h f (List.mem_cons_self f rest)
    show (rest.foldl (maxStep server) (maxStep server 0 f)) = 0
    rw [show maxStep server 0 f = 0 by
      unfold maxStep
      rw [if_neg (by intro hc; exact hf hc.1)]]
    exact ih fun e he => h e (List.mem_cons_of_mem f he)

theorem deleteVal_wrapped_elim (server : String) (force : Bool)
    (es : List InventoryEntry) (v' : StoredVal)
    (h : deleteVal server force (.wrapped es) = some v') :
    ∃ es', v' = .wrapped es' ∧
      List.Perm es' (processEntries es server force).1 := by
  simp only [deleteVal] at h
  by_cases hm : (processEntries es server force).2
  · rw [if_pos hm] at h
    by_cases hk : (processEntries es server force).1.isEmpty
    · rw [if_pos hk] at h
      cases h
    · rw [if_neg hk] at h
      cases h
      exact ⟨_, rfl, sortByTsDesc_perm _⟩
  · rw [if_neg hm] at h
    cases h
    refine ⟨es, rfl, ?_⟩
    have hm' : (processLoop server force (maxServerTs es server) es).2 = false := by
      simpa [processEntries] using hm
    have hkeep := processLoop_not_modified server force (maxServerTs es server) es hm'
    simp only [processEntries]
    rw [hkeep]

theorem delete_store_mem (db : DB) (server : String) (force : Bool)
    (hc : db.closed = false) (p : String) (v' : StoredVal)
    (hmem : (p, v') ∈ ((db.delete server force).1).store) :
    ∃ v, (p, v) ∈ db.store ∧ deleteVal server force v = some v' := by
  unfold DB.delete at hmem
  rw [if_neg (by rw [hc]; exact Bool.false_ne_true)] at hmem
  simp only at hmem
  obtain ⟨⟨q, v⟩, hqv, hf⟩ := List.mem_filterMap.mp hmem
  cases hd : deleteVal server force v with
  | none =>
    rw [hd] at hf
    cases hf
  | some w =>
    rw [hd] at hf
    simp only [Option.map_some] at hf
    cases hf
    exact ⟨v, hqv, hd⟩

theorem filterMap_all_some {α β : Type} (f : α → Option β) (g : α → β) :
    ∀ l : List α, (∀ a ∈ l, f a = some (g a)) → l.filterMap f = l.map g := by
  intro l
  induction l with
  | nil => intro _; rfl
  | cons a rest ih =>
    intro h
    rw [List.filterMap_cons, h a (List.mem_cons_self a rest),
      List.map_cons, ih fun b hb => h b (List.mem_cons_of_mem a hb)]

theorem filterMap_nonforce (server : String) (ts : Nat) :
    ∀ l : List InventoryEntry,
      (l.filterMap fun e => (deleteEntryStep server false ts e).map Prod.fst) =
        (l.filter fun e => e.server ≠ server).map (cleanEntryFn server) := by
  intro l
  induction l with
  | nil => rfl
  | cons e rest ih =>
    rw [List.filterMap_cons, List.filter_cons]
    by_cases he : e.server = server
    · have hstep : deleteEntryStep server false ts e = none := by
        unfold deleteEntryStep
        rw [if_pos he]
      rw [hstep]
      simp [he, ih]
    · have hstep := deleteEntryStep_of_ne server false ts e he (by simp)
      rw [hstep]
      simp [he, ih]

theorem processEntries_nonforce (es : List InventoryEntry) (server : String) :
    (processEntries es server false).1 =
      (es.filter fun e => e.server ≠ server).map (cleanEntryFn server) := by
  simp only [processEntries]
  rw [processLoop_fst]
  exact filterMap_nonforce server _ es

/-! ## Claim C3 -/

/-- A store whose single entry was written by `srv2` but whose inventory
contains an item with a timestamped `srv1` origin tag. -/
def c3Db : DB :=
  ⟨[("alice", .wrapped [⟨.json [.item c2Diamond], "srv2", 5⟩])], [], false⟩

/-- C3 is false as stated: after `Delete("srv1", false)` the surviving
`srv2` entry is NOT byte-identical — the cascade cleaner nulled the
`srv1`-tagged item inside it, so its inventory bytes changed even though its
server differs from the deleted one. -/
theorem c3_kept_entry_bytes_changed :
    ((c3Db.delete "srv1" false).1).store =
      [("alice", .wrapped [⟨.json [.null], "srv2", 5⟩])] ∧
    InvBytes.json [.null] ≠ InvBytes.json [.item c2Diamond] ∧
    "srv2" ≠ "srv1" := by
  refine ⟨rfl, by simp, by simp⟩

/-- C3 (amended): after `Delete(S, false)` on an open store, every surviving
record's entry list is a permutation of the original entries from servers
other than `S`, each passed through the cascade cleaner — so no surviving
entry has `server = S` and the per-player count of other-server entries is
preserved, but an entry's inventory bytes are rewritten (not byte-identical)
exactly when the cleaner removed `S`-origin items from it. -/
theorem c3_delete_nonforce_frame (db : DB) (server : String)
    (hc : db.closed = false) (p : String) (es' : List InventoryEntry)
    (hmem : (p, StoredVal.wrapped es') ∈ ((db.delete server false).1).store) :
    ∃ es, (p, StoredVal.wrapped es) ∈ db.store ∧
      List.Perm es'
        ((es.filter fun e => e.server ≠ server).map (cleanEntryFn server)) ∧
      (∀ e' ∈ es', e'.server ≠ server) ∧
      es'.length = (es.filter fun e => e.server ≠ server).length := by
  obtain ⟨v, hv, hd⟩ := delete_store_mem db server false hc p _ hmem
  cases v with
  | legacy s => simp [deleteVal] at hd
  | corrupt t => simp [deleteVal] at hd
  | wrapped es =>
    obtain ⟨es'', heq, hperm⟩ := deleteVal_wrapped_elim server false es _ hd
    obtain rfl : es' = es'' := StoredVal.wrapped.inj heq
    rw [processEntries_nonforce es server] at hperm
    refine ⟨es, hv, hperm, ?_, ?_⟩
    · intro e' he'
      obtain ⟨e, hef, hee⟩ := List.mem_map.mp (hperm.mem_iff.mp he')
      have hfe := List.mem_filter.mp hef
      rw [← hee]
      simpa [cleanEntryFn] using hfe.2
    · rw [hperm.length_eq, List.length_map]

/-- Witness for C3 (amended) at the concrete store `c3Db`. -/
theorem c3_delete_nonforce_frame_witness :
    ∃ es, ("alice", StoredVal.wrapped es) ∈ c3Db.store ∧
      List.Perm [(⟨.json [.null], "srv2", 5⟩ : InventoryEntry)]
        ((es.filter fun e => e.server ≠ "srv1").map (cleanEntryFn "srv1")) ∧
      (∀ e' ∈ [(⟨.json [.null], "srv2", 5⟩ : InventoryEntry)],
        e'.server ≠ "srv1") ∧
      [(⟨.json [.null], "srv2", 5⟩ : InventoryEntry)].length =
        (es.filter fun e => e.server ≠ "srv1").length := by
  refine c3_delete_nonforce_frame c3Db "srv1" rfl "alice" _ ?_
  rw [show ((c3Db.delete "srv1" false).1).store =
    [("alice", .wrapped [⟨.json [.null], "srv2", 5⟩])] from rfl]
  exact List.mem_singleton.mpr rfl

/-! ## Claim C4 -/

/-- C4: after `Delete(S, true)` on an open store with positive timestamps,
every surviving record descends from an original record; no surviving entry
is from `S`; if the player had an entry from `S`, no surviving entry's
timestamp exceeds the latest `S` timestamp; and players with no `S` entry
lose no entries to the force rule. -/
theorem c4_force_delete_causal_bound (db : DB) (S : String)
    (hc : db.closed = false)
    (hpos : ∀ q es, (q, StoredVal.wrapped es) ∈ db.store →
      ∀ e ∈ es, 0 < e.timestamp)
    (p : String) (es' : List InventoryEntry)
    (hmem : (p, StoredVal.wrapped es') ∈ ((db.delete S true).1).store) :
    ∃ es, (p, StoredVal.wrapped es) ∈ db.store ∧
      (∀ e' ∈ es', e'.server ≠ S) ∧
      ((∃ e ∈ es, e.server = S) →
        ∀ e' ∈ es', e'.timestamp ≤ maxServerTs es S) ∧
      ((∀ e ∈ es, e.server ≠ S) → es'.length = es.length) := by
  obtain ⟨v, hv, hd⟩ := delete_store_mem db S true hc p _ hmem
  cases v with
  | legacy s => simp [deleteVal] at hd
  | corrupt t => simp [deleteVal] at hd
  | wrapped es =>
    obtain ⟨es'', heq, hperm⟩ := deleteVal_wrapped_elim S true es _ hd
    obtain rfl : es' = es'' := StoredVal.wrapped.inj heq
    have hkept : (processEntries es S true).1 =
        es.filterMap fun e =>
          (deleteEntryStep S true (maxServerTs es S) e).map Prod.fst := by
      simp only [processEntries]
      exact processLoop_fst S true _ es
    rw [hkept] at hperm
    have hmemkept : ∀ e' ∈ es', ∃ e ∈ es, ∃ em,
        deleteEntryStep S true (maxServerTs es S) e = some (e', em) := by
      intro e' he'
      obtain ⟨e, he, hst⟩ := List.mem_filterMap.mp (hperm.mem_iff.mp he')
      cases hstep : deleteEntryStep S true (maxServerTs es S) e with
      | none =>
        rw [hstep] at hst
        cases hst
      | some q =>
        obtain ⟨e2, em⟩ := q
        rw [hstep] at hst
        have hst2 : some e2 = some e' := hst
        cases hst2
        exact ⟨e, he, em, hstep⟩
    refine ⟨es, hv, ?_, ?_, ?_⟩
    · intro e' he'
      obtain ⟨e, he, em, hstep⟩ := hmemkept e' he'
      obtain ⟨hne, he'eq, _, _⟩ :=
        deleteEntryStep_elim S true (maxServerTs es S) e e' em hstep
      rw [he'eq]
      exact hne
    · rintro ⟨e0, he0, hs0⟩ e' he'
      have hts0 : 0 < e0.timestamp := hpos p es hv e0 he0
      have hge : e0.timestamp ≤ maxServerTs es S :=
        maxServerTs_ge S es 0 e0 he0 hs0
      have htsne : maxServerTs es S ≠ 0 := by omega
      obtain ⟨e, he, em, hstep⟩ := hmemkept e' he'
      obtain ⟨_, he'eq, _, hbound⟩ :=
        deleteEntryStep_elim S true (maxServerTs es S) e e' em hstep
      rw [he'eq]
      exact hbound rfl htsne
    · intro hnoS
      have hts0 : maxServerTs es S = 0 := maxServerTs_zero_of_absent S es hnoS
      have hall : ∀ e ∈ es,
          (fun e => (deleteEntryStep S true (maxServerTs es S) e).map Prod.fst) e
            = some (cleanEntryFn S e) := by
        intro e he
        show (deleteEntryStep S true (maxServerTs es S) e).map Prod.fst
          = some (cleanEntryFn S e)
        rw [deleteEntryStep_of_ne S true _ e (hnoS e he) (by simp [hts0])]
        rfl
      rw [filterMap_all_some _ _ es hall] at hperm
      rw [hperm.length_eq, List.length_map]

/-- A concrete store for the C4 witness: player `p` has entries from `S` at
time 3, `T` at time 5 (causally after `S`) and `U` at time 2. -/
def c4Db : DB :=
  ⟨[("p", .wrapped [⟨.json [], "S", 3⟩, ⟨.json [], "T", 5⟩,
    ⟨.json [], "U", 2⟩])], [], false⟩

/-- Witness for C4 at `c4Db`: after `Delete("S", true)` only the `U` entry
(timestamp 2, at or before 3) survives. -/
theorem c4_force_delete_causal_bound_witness :
    ∃ es, ("p", StoredVal.wrapped es) ∈ c4Db.store ∧
      (∀ e' ∈ [(⟨.json [], "U", 2⟩ : InventoryEntry)], e'.server ≠ "S") ∧
      ((∃ e ∈ es, e.server = "S") →
        ∀ e' ∈ [(⟨.json [], "U", 2⟩ : InventoryEntry)],
          e'.timestamp ≤ maxServerTs es "S") ∧
      ((∀ e ∈ es, e.server ≠ "S") →
        [(⟨.json [], "U", 2⟩ : InventoryEntry)].length = es.length) := by
  refine c4_force_delete_causal_bound c4Db "S" rfl ?_ "p" _ ?_
  · intro q es hm e he
    have hm2 : (q, StoredVal.wrapped es) =
        ("p", StoredVal.wrapped [⟨.json [], "S", 3⟩, ⟨.json [], "T", 5⟩,
          ⟨.json [], "U", 2⟩]) :=
      List.mem_singleton.mp hm
    injection hm2 with hq hv
    obtain rfl : es = [⟨.json [], "S", 3⟩, ⟨.json [], "T", 5⟩,
        ⟨.json [], "U", 2⟩] := StoredVal.wrapped.inj hv
    rcases he with _ | ⟨_, _ | ⟨_, _ | ⟨_, hfalse⟩⟩⟩
    · exact Nat.succ_pos 2
    · exact Nat.succ_pos 4
    · exact Nat.succ_pos 1
    · cases hfalse
  · rw [show ((c4Db.delete "S" true).1).store =
      [("p", .wrapped [⟨.json [], "U", 2⟩])] from rfl]
    exact List.mem_singleton.mpr rfl

/-! ## Claim C5 -/

theorem put_state (db : DB) (player : String) (inv : InvBytes) (server : String)
    (now : Nat) (hc : db.closed = false) (hr : recOkAt db player)
    (hts : ∀ e ∈ entriesOf db player, e.timestamp < now) :
    ((db.put player inv server now).1).closed = false ∧
    alookup player ((db.put player inv server now).1).store =
      some (.wrapped (⟨inv, server, now⟩ :: sortByTsDesc (entriesOf db player))) := by
  rw [put_of_open_recOk db player inv server now hc hr]
  refine ⟨rfl, ?_⟩
  show alookup player (storePut player _ db.store) = _
  rw [storePut_alookup, sortByTsDesc_append_max _ _ hts]

/-- C5: starting from an open store whose record for the player (if any) is
well-formed and entirely older than the first call, a non-empty sequence of
`Put` calls with strictly increasing clock readings leaves `Get` returning
exactly the inventory bytes of the last `Put`. -/
theorem c5_latest_wins (db : DB) (player : String) (calls : List PutCall)
    (hc : db.closed = false) (hr : recOkAt db player) (hne : calls ≠ [])
    (hts : ∀ e ∈ entriesOf db player, ∀ c ∈ calls, e.timestamp < c.time)
    (hchain : List.Pairwise (fun a b => a.time < b.time) calls) :
    (runPuts db player calls).get player = .ok (calls.getLast hne).inventory := by
  induction calls generalizing db with
  | nil => exact absurd rfl hne
  | cons c cs ih =>
    obtain ⟨hstate1, hstate2⟩ := put_state db player c.inventory c.server c.time
      hc hr (fun e he => hts e he c (List.mem_cons_self c cs))
    cases cs with
    | nil =>
      show ((db.put player c.inventory c.server c.time).1).get player = _
      unfold DB.get
      rw [if_neg (by rw [hstate1]; exact Bool.false_ne_true), hstate2]
      rfl
    | cons c2 rest =>
      have hne2 : c2 :: rest ≠ [] := List.cons_ne_nil c2 rest
      have hpw := List.pairwise_cons.mp hchain
      have hts' : ∀ e ∈ entriesOf ((db.put player c.inventory c.server c.time).1)
          player, ∀ c' ∈ c2 :: rest, e.timestamp < c'.time := by
        intro e he c' hc'
        have : entriesOf ((db.put player c.inventory c.server c.time).1) player =
            ⟨c.inventory, c.server, c.time⟩ :: sortByTsDesc (entriesOf db player) := by
          unfold entriesOf
          rw [hstate2]
          rfl
        rw [this] at he
        rcases List.mem_cons.mp he with rfl | hmem
        · exact hpw.1 c' hc'
        · have hold : e ∈ entriesOf db player :=
            (sortByTsDesc_perm (entriesOf db player)).mem_iff.mp hmem
          exact Nat.lt_trans (hts e hold c (List.mem_cons_self c _))
            (hpw.1 c' hc')
      have hr' : recOkAt ((db.put player c.inventory c.server c.time).1) player := by
        unfold recOkAt
        rw [hstate2]
        trivial
      have := ih ((db.put player c.inventory c.server c.time).1) hstate1 hr'
        hne2 hts' hpw.2
      rw [show (runPuts db player (c :: c2 :: rest)) =
        runPuts ((db.put player c.inventory c.server c.time).1) player
          (c2 :: rest) from rfl]
      rw [this, List.getLast_cons hne2]

/-- Witness for C5: two puts at times 1 and 2 on a fresh store; `Get`
returns the second inventory. -/
theorem c5_latest_wins_witness :
    (runPuts ⟨[], [], false⟩ "p"
      [⟨.json [], "s1", 1⟩, ⟨.json [.null], "s2", 2⟩]).get "p" =
      .ok (.json [.null]) := by
  have h := c5_latest_wins ⟨[], [], false⟩ "p"
    [⟨.json [], "s1", 1⟩, ⟨.json [.null], "s2", 2⟩] rfl trivial
    (List.cons_ne_nil _ _)
    (by
      intro e he c hc
      exact absurd he (List.not_mem_nil e))
    (by simp [List.pairwise_cons])
  exact h

/-! ## Validator error-kind range lemmas -/

theorem validateAmountBlock_types (typeId : String) (amount : Int) (idx : Int) :
    ∀ err ∈ validateAmountBlock typeId amount idx,
      err.errorType = "invalid_amount" ∨ err.errorType = "stack_too_large" := by
  intro err herr
  unfold validateAmountBlock at herr
  by_cases h1 : amount ≤ 0
  · rw [if_pos h1] at herr
    rcases List.mem_singleton.mp herr with rfl
    left
    rfl
  · rw [if_neg h1] at herr
    by_cases h2 : (if lookupInt maxStackSizes typeId = 0 then 64
        else lookupInt maxStackSizes typeId) < amount
    · rw [if_pos h2] at herr
      rcases List.mem_singleton.mp herr with rfl
      right
      rfl
    · rw [if_neg h2] at herr
      cases herr

theorem validateEnchantsAux_types (idx : Int) :
    ∀ (es : List Ench) (i : Int) (seen : List (String × Int)),
      ∀ err ∈ validateEnchantsAux idx es i seen,
        err.errorType = "invalid_enchantment" ∨
        err.errorType = "unknown_enchantment" ∨
        err.errorType = "invalid_enchantment_level" ∨
        err.errorType = "duplicate_enchantment" ∨
        err.errorType = "incompatible_enchantments" := by
  intro es
  induction es with
  | nil =>
    intro i seen err herr
    cases herr
  | cons e rest ih =>
    intro i seen err herr
    obtain ⟨typ, level⟩ := e
    cases typ with
    | none =>
      simp only [validateEnchantsAux] at herr
      rcases List.mem_cons.mp herr with rfl | h2
      · left
        rfl
      · exact ih _ _ err h2
    | some t =>
      cases level with
      | none =>
        simp only [validateEnchantsAux] at herr
        rcases List.mem_cons.mp herr with rfl | h2
        · left
          rfl
        · exact ih _ _ err h2
      | some lv =>
        simp only [validateEnchantsAux] at herr
        by_cases hml : lookupInt maxEnchantmentLevels t = 0
        · rw [if_pos hml] at herr
          rcases List.mem_cons.mp herr with rfl | h2
          · right
            left
            rfl
          · exact ih _ _ err h2
        · rw [if_neg hml] at herr
          rcases List.mem_append.mp herr with h3 | h2
          · rcases List.mem_append.mp h3 with h4 | h5
            · rcases List.mem_append.mp h4 with h6 | h7
              · by_cases hlv : lv ≤ 0 ∨ lookupInt maxEnchantmentLevels t < lv
                · rw [if_pos hlv] at h6
                  rcases List.mem_singleton.mp h6 with rfl
                  right; right; left
                  rfl
                · rw [if_neg hlv] at h6
                  cases h6
              · by_cases hdup : (alookup t seen).isSome
                · rw [if_pos hdup] at h7
                  rcases List.mem_singleton.mp h7 with rfl
                  right; right; right; left
                  rfl
                · rw [if_neg hdup] at h7
                  cases h7
            · obtain ⟨inc, _, hinc⟩ := List.mem_filterMap.mp h5
              by_cases hs : (alookup inc ((t, lv) :: seen)).isSome
              · rw [if_pos hs] at hinc
                rcases Option.some.inj hinc with rfl
                right; right; right; right
                rfl
              · rw [if_neg hs] at hinc
                cases hinc
          · exact ih _ _ err h2

theorem validateDurability_types (d : Dur) (itemType : String) (idx : Int) :
    ∀ err ∈ validateDurability d itemType idx,
      err.errorType = "invalid_durability" ∨
      err.errorType = "negative_durability" ∨
      err.errorType = "invalid_max_durability" ∨
      err.errorType = "durability_exceeds_max" := by
  intro err herr
  unfold validateDurability at herr
  by_cases h0 : d.damage = none ∧ d.maxDurability = none
  · rw [if_pos h0] at herr
    cases herr
  · rw [if_neg h0] at herr
    by_cases h1 : d.damage = some .bad
    · rw [if_pos h1] at herr
      rcases List.mem_singleton.mp herr with rfl
      left
      rfl
    · rw [if_neg h1] at herr
      by_cases h2 : d.maxDurability = some .bad
      · rw [if_pos h2] at herr
        rcases List.mem_singleton.mp herr with rfl
        left
        rfl
      · rw [if_neg h2] at herr
        cases hmd : d.maxDurability with
        | none =>
          rw [hmd] at herr
          simp only at herr
          by_cases hneg : (match d.damage with
            | some (.num n) => n
            | _ => 0) < 0
          · rw [if_pos hneg] at herr
            rcases List.mem_singleton.mp herr with rfl
            right; left
            rfl
          · rw [if_neg hneg] at herr
            cases herr
        | some j =>
          cases j with
          | bad => exact absurd hmd h2
          | num md =>
            rw [hmd] at herr
            simp only at herr
            rcases List.mem_append.mp herr with h3 | h4
            · rcases List.mem_append.mp h3 with h5 | h6
              · by_cases hneg : (match d.damage with
                  | some (.num n) => n
                  | _ => 0) < 0
                · rw [if_pos hneg] at h5
                  rcases List.mem_singleton.mp h5 with rfl
                  right; left
                  rfl
                · rw [if_neg hneg] at h5
                  cases h5
              · by_cases hexp : 0 < lookupInt defaultMaxDurability itemType ∧
                    md ≠ lookupInt defaultMaxDurability itemType
                · rw [if_pos hexp] at h6
                  rcases List.mem_singleton.mp h6 with rfl
                  right; right; left
                  rfl
                · rw [if_neg hexp] at h6
                  cases h6
            · by_cases hexc : md < (match d.damage with
                | some (.num n) => n
                | _ => 0)
              · rw [if_pos hexc] at h4
                rcases List.mem_singleton.mp h4 with rfl
                right; right; right
                rfl
              · rw [if_neg hexc] at h4
                cases h4

/-- The durability dispatch of `ValidateItem` (validator.go:306), as a named
function so rewriting can target it. -/
def durBlock (t : String) (idx : Int) : Option Dur → List ValidationError
  | some dd => validateDurability dd t idx
  | none => []

/-- Decomposition of `ValidateItem` for a non-empty type: the five check
blocks concatenated in order. -/
theorem ValidateItem_decomp (t : String) (a : Int) (n : String)
    (lore : List String) (en : List Ench) (d : Option Dur) (cont : List Slot)
    (server : String) (idx : Int) (ht : t ≠ "") :
    ValidateItem (.mk t a n lore en d cont) server idx =
      validateAmountBlock t a idx ++
      (if en.isEmpty then [] else validateEnchantsAux idx en 0 []) ++
      durBlock t idx d ++
      validateOrigin lore server idx ++
      (if cont.isEmpty then [] else validateShulkerAux cont server idx 0) := by
  simp only [ValidateItem]
  rw [if_neg ht]
  cases d <;> rfl

theorem durBlock_no_wrong_origin (d : Option Dur) (t : String) (idx : Int) :
    "wrong_origin" ∉ errorTypes (durBlock t idx d) := by
  intro hmem
  cases d with
  | none => cases hmem
  | some dd =>
    obtain ⟨err, herr, htyp⟩ := List.mem_map.mp hmem
    rcases validateDurability_types dd t idx err herr with
      h | h | h | h <;> rw [h] at htyp <;> exact absurd htyp (by decide)

/-! ## Claim C10 -/

theorem wrongOrigin_mem_validateOrigin (lore : List String) (server : String)
    (idx : Int) (s0 : String) (h : validatorOriginServer lore = some s0) :
    ("wrong_origin" ∈ errorTypes (validateOrigin lore server idx) ↔ s0 ≠ server) := by
  by_cases hs : s0 = server
  · simp [validateOrigin, errorTypes, h, hs]
  · simp [validateOrigin, errorTypes, h, hs]

/-- The item of the C10 counterexample: an empty `typeId` with two origin
lines, the first naming a different server than the validating one. -/
def c10Item : Item := .mk "" 1 "" ["Origin: a", "Origin: b"] [] none []

/-- C10 is false as stated over all items: for an item with an empty
`typeId`, `ValidateItem` returns only `missing_type` and never reaches the
origin check, so no `wrong_origin` is reported even though the first
matching origin line names `a` and the validating server is `b`. -/
theorem c10_counterexample_missing_type_shortcircuits :
    2 ≤ (c10Item.lore.filter fun l => (simpleOriginCapture l).isSome).length ∧
    validatorOriginServer c10Item.lore = some "a" ∧
    "a" ≠ "b" ∧
    errorTypes (ValidateItem c10Item "b" 0) = ["missing_type"] ∧
    "wrong_origin" ∉ errorTypes (ValidateItem c10Item "b" 0) := by
  refine ⟨by decide, rfl, by decide, rfl, by decide⟩

/-- C10 (amended): origin validation considers only the FIRST lore line
matching the origin pattern; for an item with a non-empty `typeId` and no
container contents whose lore has two or more matching lines, `ValidateItem`
reports `wrong_origin` exactly when the first matching line names a server
other than the validating one — later origin lines are ignored.  (An empty
`typeId` short-circuits validation, and nested container items can
contribute their own `wrong_origin` errors, hence the two restrictions.) -/
theorem c10_first_origin_line_wins (server : String) (idx : Int)
    (item : Item) (s0 : String)
    (hmulti : 2 ≤ (item.lore.filter fun l => (simpleOriginCapture l).isSome).length)
    (hfirst : validatorOriginServer item.lore = some s0)
    (htype : item.typeId ≠ "") (hcontents : item.shulkerContents = []) :
    ("wrong_origin" ∈ errorTypes (validateOrigin item.lore server idx) ↔
      s0 ≠ server) ∧
    ("wrong_origin" ∈ errorTypes (ValidateItem item server idx) ↔
      s0 ≠ server) := by
  refine ⟨wrongOrigin_mem_validateOrigin item.lore server idx s0 hfirst, ?_⟩
  obtain ⟨t, a, n, lo, en, d, cont⟩ := item
  have hcont : cont = [] := hcontents
  subst hcont
  simp only [Item.lore] at hfirst
  simp only [Item.typeId] at htype
  rw [ValidateItem_decomp t a n lo en d [] server idx htype]
  have hsplit : ∀ l1 l2 : List ValidationError,
      "wrong_origin" ∈ errorTypes (l1 ++ l2) ↔
        "wrong_origin" ∈ errorTypes l1 ∨ "wrong_origin" ∈ errorTypes l2 := by
    intro l1 l2
    unfold errorTypes
    rw [List.map_append, List.mem_append]
  have hamount : "wrong_origin" ∉ errorTypes (validateAmountBlock t a idx) := by
    intro hmem
    obtain ⟨err, herr, htyp⟩ := List.mem_map.mp hmem
    rcases validateAmountBlock_types t a idx err herr with h | h <;>
      rw [h] at htyp <;> exact absurd htyp (by decide)
  have hench : "wrong_origin" ∉
      errorTypes (if en.isEmpty then [] else validateEnchantsAux idx en 0 []) := by
    intro hmem
    by_cases he : en.isEmpty
    · rw [if_pos he] at hmem
      cases hmem
    · rw [if_neg he] at hmem
      obtain ⟨err, herr, htyp⟩ := List.mem_map.mp hmem
      rcases validateEnchantsAux_types idx en 0 [] err herr with
        h | h | h | h | h <;> rw [h] at htyp <;> exact absurd htyp (by decide)
  constructor
  · intro hmem
    rcases (hsplit _ _).mp hmem with h1 | h2
    · rcases (hsplit _ _).mp h1 with h3 | h4
      · rcases (hsplit _ _).mp h3 with h5 | h6
        · rcases (hsplit _ _).mp h5 with h7 | h8
          · exact absurd h7 hamount
          · exact absurd h8 hench
        · exact absurd h6 (durBlock_no_wrong_origin d t idx)
      · exact (wrongOrigin_mem_validateOrigin lo server idx s0 hfirst).mp h4
    · rw [show ((if ([] : List Slot).isEmpty then []
        else validateShulkerAux [] server idx 0) : List ValidationError)
          = [] from rfl] at h2
      cases h2
  · intro hne
    exact (hsplit _ _).mpr (.inl ((hsplit _ _).mpr (.inr
      ((wrongOrigin_mem_validateOrigin lo server idx s0 hfirst).mpr hne))))

/-- Witness for C10 (amended): with lore `["Origin: a", "Origin: b"]`
validated for server `b`, the first matching line (`a`) wins and
`wrong_origin` is reported even though the second line names `b`. -/
theorem c10_first_origin_line_wins_witness :
    "wrong_origin" ∈ errorTypes (ValidateItem
      (.mk "minecraft:diamond" 1 "" ["Origin: a", "Origin: b"] [] none [])
      "b" 0) :=
  ((c10_first_origin_line_wins "b" 0
    (.mk "minecraft:diamond" 1 "" ["Origin: a", "Origin: b"] [] none [])
    "a" (by decide) rfl (by decide) rfl).2).mpr (by decide)

/-! ## Claim C9: legality implies an empty error list -/

/-- Legality of the optional durability block. -/
def legalDurOpt (t : String) : Option Dur → Bool
  | some d => legalDur t d
  | none => true

theorem alookup_getD_contains_self (m : List (String × List String))
    (hm : ∀ p ∈ m, p.2.contains p.1 = false) (t : String) :
    ((alookup t m).getD []).contains t = false := by
  induction m with
  | nil => rfl
  | cons p rest ih =>
    obtain ⟨k, l⟩ := p
    rw [alookup_cons]
    by_cases hk : k = t
    · rw [if_pos hk]
      have := hm (k, l) (List.mem_cons_self _ _)
      simpa [hk] using this
    · rw [if_neg hk]
      exact ih fun q hq => hm q (List.mem_cons_of_mem _ hq)

theorem incompat_table_no_self :
    ∀ p ∈ incompatibleEnchantments, p.2.contains p.1 = false := by
  decide

theorem incompat_self_free (t : String) :
    ((alookup t incompatibleEnchantments).getD []).contains t = false :=
  alookup_getD_contains_self incompatibleEnchantments incompat_table_no_self t

theorem validateAmountBlock_nil_of_legal (t : String) (a : Int) (idx : Int)
    (h : legalAmount t a = true) : validateAmountBlock t a idx = [] := by
  unfold legalAmount at h
  obtain ⟨h1, h2⟩ := Bool.and_eq_true_iff.mp h
  have ha : 0 < a := of_decide_eq_true h1
  have hb : a ≤ (if lookupInt maxStackSizes t = 0 then 64
      else lookupInt maxStackSizes t) := of_decide_eq_true h2
  unfold validateAmountBlock
  rw [if_neg (by omega), if_neg (by omega)]

theorem validateDurability_none_none (t : String) (idx : Int) :
    validateDurability ⟨none, none⟩ t idx = [] := rfl

theorem validateDurability_num_none (dmg : Int) (t : String) (idx : Int) :
    validateDurability ⟨some (.num dmg), none⟩ t idx =
      if dmg < 0 then
        [⟨"", "", idx, "negative_durability",
          "Durability damage cannot be negative: " ++ toString dmg⟩]
      else [] := by
  unfold validateDurability
  rw [if_neg (by simp), if_neg (by simp), if_neg (by simp)]

theorem validateDurability_none_num (md : Int) (t : String) (idx : Int) :
    validateDurability ⟨none, some (.num md)⟩ t idx =
      (if 0 < lookupInt defaultMaxDurability t ∧
          md ≠ lookupInt defaultMaxDurability t then
        [⟨"", "", idx, "invalid_max_durability",
          "Invalid max durability " ++ toString md ++ " for " ++ t ++
            " (expected: " ++ toString (lookupInt defaultMaxDurability t) ++ ")"⟩]
      else []) ++
      (if md < 0 then
        [⟨"", "", idx, "durability_exceeds_max",
          "Durability damage " ++ toString (0 : Int) ++
            " exceeds max durability " ++ toString md⟩]
      else []) := by
  unfold validateDurability
  rw [if_neg (by simp), if_neg (by simp), if_neg (by simp)]
  rfl

theorem validateDurability_num_num (dmg md : Int) (t : String) (idx : Int) :
    validateDurability ⟨some (.num dmg), some (.num md)⟩ t idx =
      (if dmg < 0 then
        [⟨"", "", idx, "negative_durability",
          "Durability damage cannot be negative: " ++ toString dmg⟩]
      else []) ++
      (if 0 < lookupInt defaultMaxDurability t ∧
          md ≠ lookupInt defaultMaxDurability t then
        [⟨"", "", idx, "invalid_max_durability",
          "Invalid max durability " ++ toString md ++ " for " ++ t ++
            " (expected: " ++ toString (lookupInt defaultMaxDurability t) ++ ")"⟩]
      else []) ++
      (if md < dmg then
        [⟨"", "", idx, "durability_exceeds_max",
          "Durability damage " ++ toString dmg ++
            " exceeds max durability " ++ toString md⟩]
      else []) := by
  unfold validateDurability
  rw [if_neg (by simp), if_neg (by simp), if_neg (by simp)]

theorem validateDurability_nil_of_legal (d : Dur) (t : String) (idx : Int)
    (h : legalDur t d = true) : validateDurability d t idx = [] := by
  obtain ⟨dam, mdur⟩ := d
  unfold legalDur at h
  cases dam with
  | none =>
    cases mdur with
    | none => rfl
    | some j =>
      cases j with
      | bad => cases h
      | num md =>
        simp only at h
        obtain ⟨he, hnn⟩ := Bool.and_eq_true_iff.mp h
        have hmd0 : 0 ≤ md := of_decide_eq_true hnn
        have hexp : lookupInt defaultMaxDurability t = 0 ∨
            md = lookupInt defaultMaxDurability t := by
          rcases Bool.or_eq_true_iff.mp he with h3 | h3
          · exact .inl (of_decide_eq_true h3)
          · exact .inr (of_decide_eq_true h3)
        rw [validateDurability_none_num]
        rw [if_neg (by
            rintro ⟨hp, hne⟩
            rcases hexp with h4 | h4
            · omega
            · exact hne h4),
          if_neg (by omega)]
        rfl
  | some j =>
    cases j with
    | bad =>
      cases mdur with
      | none => cases h
      | some j2 => cases j2 <;> cases h
    | num dmg =>
      cases mdur with
      | none =>
        simp only at h
        have hd0 : 0 ≤ dmg := of_decide_eq_true h
        rw [validateDurability_num_none, if_neg (by omega)]
      | some j2 =>
        cases j2 with
        | bad => cases h
        | num md =>
          simp only at h
          obtain ⟨h12, h3⟩ := Bool.and_eq_true_iff.mp h
          obtain ⟨h1, h2⟩ := Bool.and_eq_true_iff.mp h12
          have hd0 : 0 ≤ dmg := of_decide_eq_true h1
          have hle : dmg ≤ md := of_decide_eq_true h3
          have hexp : lookupInt defaultMaxDurability t = 0 ∨
              md = lookupInt defaultMaxDurability t := by
            rcases Bool.or_eq_true_iff.mp h2 with h4 | h4
            · exact .inl (of_decide_eq_true h4)
            · exact .inr (of_decide_eq_true h4)
          rw [validateDurability_num_num, if_neg (by omega),
            if_neg (by
              rintro ⟨hp, hne⟩
              rcases hexp with h4 | h4
              · omega
              · exact hne h4),
            if_neg (by omega)]
          rfl

theorem durBlock_nil_of_legal (d : Option Dur) (t : String) (idx : Int)
    (h : legalDurOpt t d = true) : durBlock t idx d = [] := by
  cases d with
  | none => rfl
  | some dd => exact validateDurability_nil_of_legal dd t idx h

theorem durBlock_some (dd : Dur) (t : String) (idx : Int) :
    durBlock t idx (some dd) = validateDurability dd t idx := rfl

theorem validateOrigin_ok (lore : List String) (server : String) (idx : Int)
    (h : validatorOriginServer lore = some server) :
    validateOrigin lore server idx = [] := by
  unfold validateOrigin
  rw [h]
  simp

theorem contains_false_not_mem {l : List String} {a : String}
    (h : l.contains a = false) : a ∉ l := by
  intro hmem
  induction l with
  | nil => cases hmem
  | cons b rest ih =>
    rw [List.contains_cons] at h
    obtain ⟨h1, h2⟩ := Bool.or_eq_false_iff.mp h
    rcases List.mem_cons.mp hmem with rfl | hmem2
    · simp at h1
    · exact ih h2 hmem2

/-- Stepping the enchantment loop over a fully legal entry produces no
errors and just extends the seen map. -/
theorem validateEnchantsAux_cons_legal (idx i : Int) (t : String) (lv : Int)
    (rest : List Ench) (seen : List (String × Int))
    (hml : lookupInt maxEnchantmentLevels t ≠ 0)
    (hlv : ¬ (lv ≤ 0 ∨ lookupInt maxEnchantmentLevels t < lv))
    (hdup : alookup t seen = none)
    (hinc : ∀ inc ∈ (alookup t incompatibleEnchantments).getD [],
      alookup inc ((t, lv) :: seen) = none) :
    validateEnchantsAux idx (⟨some t, some lv⟩ :: rest) i seen =
      validateEnchantsAux idx rest (i + 1) ((t, lv) :: seen) := by
  simp only [validateEnchantsAux]
  rw [if_neg hml, if_neg hlv, hdup]
  rw [List.filterMap_eq_nil_iff.mpr fun inc h => by rw [hinc inc h]; rfl]
  simp

theorem validateEnchantsAux_nil_of_legal (idx : Int) :
    ∀ (es : List Ench) (i : Int) (seen : List (String × Int)),
      es.all legalEnchEntry = true →
      (enchTypesOf es).Nodup →
      ((enchTypesOf es).Pairwise fun a b =>
        ((alookup b incompatibleEnchantments).getD []).contains a = false) →
      (∀ t ∈ enchTypesOf es, alookup t seen = none) →
      (∀ t ∈ enchTypesOf es,
        ∀ inc ∈ (alookup t incompatibleEnchantments).getD [],
          alookup inc seen = none) →
      validateEnchantsAux idx es i seen = [] := by
  intro es
  induction es with
  | nil =>
    intro i seen _ _ _ _ _
    rfl
  | cons e rest ih =>
    intro i seen hall hnd hpw hseen hseeninc
    obtain ⟨typ, level⟩ := e
    rw [List.all_cons] at hall
    obtain ⟨hhead, htail⟩ := Bool.and_eq_true_iff.mp hall
    cases typ with
    | none => cases hhead
    | some t =>
      cases level with
      | none => cases hhead
      | some lv =>
        simp only [legalEnchEntry] at hhead
        obtain ⟨h12, h3⟩ := Bool.and_eq_true_iff.mp hhead
        obtain ⟨h1, h2⟩ := Bool.and_eq_true_iff.mp h12
        have hml : lookupInt maxEnchantmentLevels t ≠ 0 := of_decide_eq_true h1
        have hlv1 : 0 < lv := of_decide_eq_true h2
        have hlv2 : lv ≤ lookupInt maxEnchantmentLevels t := of_decide_eq_true h3
        have htypes : enchTypesOf (⟨some t, some lv⟩ :: rest) =
            t :: enchTypesOf rest := rfl
        rw [htypes] at hnd hpw hseen hseeninc
        have hndc := List.nodup_cons.mp hnd
        have hpwc := List.pairwise_cons.mp hpw
        have hts : alookup t seen = none := hseen t (List.mem_cons_self _ _)
        rw [validateEnchantsAux_cons_legal idx i t lv rest seen hml
          (by omega) hts
          (fun inc h => by
            rw [alookup_cons,
              if_neg (fun he => by
                subst he
                exact absurd h (contains_false_not_mem (incompat_self_free t)))]
            exact hseeninc t (List.mem_cons_self _ _) inc h)]
        refine ih (i + 1) ((t, lv) :: seen) htail hndc.2 hpwc.2 ?_ ?_
        · intro t2 ht2
          rw [alookup_cons, if_neg (fun he => hndc.1 (by rw [he]; exact ht2))]
          exact hseen t2 (List.mem_cons_of_mem _ ht2)
        · intro t2 ht2 inc hincm
          rw [alookup_cons, if_neg (fun he => by
            subst he
            exact absurd hincm (fun hh =>
              absurd (contains_false_not_mem (hpwc.1 t2 ht2)) (fun hcc => hcc hh)))]
          exact hseeninc t2 (List.mem_cons_of_mem _ ht2) inc hincm

theorem validateEnchantments_nil_of_legal (en : List Ench) (idx : Int)
    (h : legalEnchList en = true) : validateEnchantsAux idx en 0 [] = [] := by
  unfold legalEnchList at h
  obtain ⟨h12, h3⟩ := Bool.and_eq_true_iff.mp h
  obtain ⟨h1, h2⟩ := Bool.and_eq_true_iff.mp h12
  exact validateEnchantsAux_nil_of_legal idx en 0 [] h1
    (of_decide_eq_true h2) (of_decide_eq_true h3)
    (fun t _ => rfl) (fun t _ inc _ => rfl)

mutual
/-- A fully legal item validates with no errors. -/
theorem ValidateItem_nil_of_legal (server : String) :
    ∀ (it : Item) (idx : Int), legalItem server it = true →
      ValidateItem it server idx = []
  | .mk t a n lore en d cont, idx => by
    intro h
    simp only [legalItem] at h
    obtain ⟨h5, h6⟩ := Bool.and_eq_true_iff.mp h
    obtain ⟨h4, h5'⟩ := Bool.and_eq_true_iff.mp h5
    obtain ⟨h3, h4'⟩ := Bool.and_eq_true_iff.mp h4
    obtain ⟨h2, h3'⟩ := Bool.and_eq_true_iff.mp h3
    obtain ⟨h1, h2'⟩ := Bool.and_eq_true_iff.mp h2
    have ht : t ≠ "" := of_decide_eq_true h1
    rw [ValidateItem_decomp t a n lore en d cont server idx ht]
    rw [validateAmountBlock_nil_of_legal t a idx h2']
    rw [durBlock_nil_of_legal d t idx h4']
    unfold legalOrigin at h5'
    obtain ⟨_, ho⟩ := Bool.and_eq_true_iff.mp h5'
    rw [validateOrigin_ok lore server idx (of_decide_eq_true ho)]
    rw [show (if en.isEmpty then []
        else validateEnchantsAux idx en 0 []) = ([] : List ValidationError) by
      by_cases he : en.isEmpty
      · rw [if_pos he]
      · rw [if_neg he]
        exact validateEnchantments_nil_of_legal en idx h3']
    rw [show (if cont.isEmpty then []
        else validateShulkerAux cont server idx 0) = ([] : List ValidationError) by
      by_cases hce : cont.isEmpty
      · rw [if_pos hce]
      · rw [if_neg hce]
        exact validateShulkerAux_nil_of_legal server cont idx 0 h6]
    rfl

/-- Legal container contents validate with no errors at any index. -/
theorem validateShulkerAux_nil_of_legal (server : String) :
    ∀ (l : List Slot) (idx i : Int), legalSlots server l = true →
      validateShulkerAux l server idx i = []
  | [], _, _ => fun _ => rfl
  | .null :: rest, idx, i => fun h => by
    show validateShulkerAux rest server idx (i + 1) = []
    exact validateShulkerAux_nil_of_legal server rest idx (i + 1)
      (by simpa [legalSlots] using h)
  | .blob tg :: rest, idx, i => fun h => by
    exact absurd h (by simp [legalSlots])
  | .item it :: rest, idx, i => fun h => by
    have hh : legalItem server it = true ∧ legalSlots server rest = true := by
      simpa [legalSlots] using h
    show ((ValidateItem it server idx).map _) ++
      validateShulkerAux rest server idx (i + 1) = []
    rw [ValidateItem_nil_of_legal server it idx hh.1,
      validateShulkerAux_nil_of_legal server rest idx (i + 1) hh.2]
    rfl
end

/-! ## Claim C9: single illegal fields give exactly one error -/

theorem maxStackSizes_pos : ∀ p ∈ maxStackSizes, 0 < p.2 := by decide

theorem maxStack_pos (t : String) :
    0 < (if lookupInt maxStackSizes t = 0 then 64
      else lookupInt maxStackSizes t) := by
  by_cases h : lookupInt maxStackSizes t = 0
  · rw [if_pos h]
    decide
  · rw [if_neg h]
    unfold lookupInt at h ⊢
    cases halk : alookup t maxStackSizes with
    | none =>
      rw [halk] at h
      exact absurd rfl h
    | some v =>
      exact maxStackSizes_pos (t, v) (alookup_mem halk)

theorem validateAmountBlock_nonpos (t : String) (a : Int) (idx : Int)
    (h : a ≤ 0) :
    validateAmountBlock t a idx =
      [⟨"", "", idx, "invalid_amount", "Item amount must be positive"⟩] := by
  unfold validateAmountBlock
  rw [if_pos h]

theorem validateAmountBlock_toobig (t : String) (a : Int) (idx : Int)
    (h : (if lookupInt maxStackSizes t = 0 then 64
      else lookupInt maxStackSizes t) < a) :
    validateAmountBlock t a idx =
      [⟨"", "", idx, "stack_too_large",
        "Stack size " ++ toString a ++ " exceeds maximum " ++
          toString (if lookupInt maxStackSizes t = 0 then 64
            else lookupInt maxStackSizes t) ++ " for " ++ t⟩] := by
  have hpos := maxStack_pos t
  simp only [validateAmountBlock]
  rw [if_neg (by omega), if_pos h]

theorem validateOrigin_wrong (lore : List String) (server : String) (idx : Int)
    (s0 : String) (h : validatorOriginServer lore = some s0)
    (hs : s0 ≠ server) :
    validateOrigin lore server idx =
      [⟨"", "", idx, "wrong_origin",
        "Item origin \x27" ++ s0 ++ "\x27 doesn\x27t match server \x27" ++
          server ++ "\x27"⟩] := by
  simp only [validateOrigin, h]
  rw [if_pos hs]

theorem validateOrigin_missing (lore : List String) (server : String)
    (idx : Int) (h : validatorOriginServer lore = none) :
    validateOrigin lore server idx =
      [⟨"", "", idx, "missing_origin", "Item missing origin lore"⟩] := by
  simp only [validateOrigin, h]

theorem validateEnchantsAux_unknown (idx : Int) (et : String) (lv : Int)
    (h : lookupInt maxEnchantmentLevels et = 0) :
    validateEnchantsAux idx [⟨some et, some lv⟩] 0 [] =
      [⟨"", "", idx, "unknown_enchantment", "Unknown enchantment: " ++ et⟩] := by
  simp only [validateEnchantsAux]
  rw [if_pos h]

theorem validateEnchantsAux_badlevel (idx : Int) (et : String) (lv : Int)
    (h1 : lookupInt maxEnchantmentLevels et ≠ 0)
    (h2 : lv ≤ 0 ∨ lookupInt maxEnchantmentLevels et < lv) :
    validateEnchantsAux idx [⟨some et, some lv⟩] 0 [] =
      [⟨"", "", idx, "invalid_enchantment_level",
        "Enchantment " ++ et ++ " level " ++ toString lv ++
          " is invalid (max: " ++
          toString (lookupInt maxEnchantmentLevels et) ++ ")"⟩] := by
  simp only [validateEnchantsAux]
  rw [if_neg h1, if_pos h2]
  rw [List.filterMap_eq_nil_iff.mpr fun inc hm => by
    have hne : et ≠ inc := fun he => by
      subst he
      exact absurd hm (contains_false_not_mem (incompat_self_free et))
    rw [alookup_cons, if_neg hne]
    rfl]
  simp [alookup]

theorem validateDurability_bad_none (t : String) (idx : Int) :
    validateDurability ⟨some .bad, none⟩ t idx =
      [⟨"", "", idx, "invalid_durability",
        "Durability damage must be a number"⟩] := by
  unfold validateDurability
  rw [if_neg (by simp), if_pos rfl]

theorem ench_if_legal (idx : Int) (en : List Ench) (h : legalEnchList en = true) :
    (if en.isEmpty then [] else validateEnchantsAux idx en 0 []) =
      ([] : List ValidationError) := by
  by_cases he : en.isEmpty
  · rw [if_pos he]
  · rw [if_neg he]
    exact validateEnchantments_nil_of_legal en idx h

theorem ench_if_cons (idx : Int) (e : Ench) (rest : List Ench) :
    (if (e :: rest).isEmpty then []
      else validateEnchantsAux idx (e :: rest) 0 []) =
      validateEnchantsAux idx (e :: rest) 0 [] := rfl

theorem cont_if_legal (server : String) (cont : List Slot) (idx : Int)
    (h : legalSlots server cont = true) :
    (if cont.isEmpty then [] else validateShulkerAux cont server idx 0) =
      ([] : List ValidationError) := by
  by_cases hce : cont.isEmpty
  · rw [if_pos hce]
  · rw [if_neg hce]
    exact validateShulkerAux_nil_of_legal server cont idx 0 h

/-- The base item of the C9 counterexample: a diamond sword with damage 100
and the canonical max durability 1561, fully legal. -/
def c9Base : Item :=
  .mk "minecraft:diamond_sword" 1 "" ["Origin: server1"] []
    (some ⟨some (.num 100), some (.num 1561)⟩) []

/-- The C9 mutation: the same item with the single field `maxDurability`
changed to the illegal value 50. -/
def c9Mut : Item :=
  .mk "minecraft:diamond_sword" 1 "" ["Origin: server1"] []
    (some ⟨some (.num 100), some (.num 50)⟩) []

/-- C9 is false as stated: the base item is fully legal and validates with
no errors, but changing the single field `maxDurability` to the illegal
value 50 makes `ValidateItem` report TWO distinct error kinds
(`invalid_max_durability` because 50 is not the canonical 1561, and
`durability_exceeds_max` because the unchanged damage 100 now exceeds 50),
not \x22exactly the one error kind corresponding to that violation and no
others\x22. -/
theorem c9_counterexample_double_durability_error :
    legalItem "server1" c9Base = true ∧
    ValidateItem c9Base "server1" 0 = [] ∧
    errorTypes (ValidateItem c9Mut "server1" 0) =
      ["invalid_max_durability", "durability_exceeds_max"] ∧
    "invalid_max_durability" ≠ "durability_exceeds_max" :=
  ⟨rfl, rfl, rfl, by decide⟩

/-- **C9** (amended): a syntactically valid item with a correct origin line
and legal amount, enchantments, durability and container contents yields
zero validation errors; and each single-field mutation to an illegal value
of the kinds below yields exactly the corresponding single error kind:
empty `typeId` gives `missing_type`, a non-positive amount gives
`invalid_amount`, an amount over the stack bound gives `stack_too_large`,
an unknown enchantment gives `unknown_enchantment`, an out-of-range level
gives `invalid_enchantment_level`, a negative damage gives
`negative_durability`, a non-numeric damage gives `invalid_durability`, a
lore whose first origin line names another server gives `wrong_origin`,
and a lore with no origin line gives `missing_origin`.  (Unlike the
original claim, this does not hold for EVERY illegal mutation: a wrong
`maxDurability` under a large damage yields two error kinds.) -/
theorem c9_validator_round_trip (t : String) (a : Int) (n : String)
    (lore : List String) (en : List Ench) (d : Option Dur) (cont : List Slot)
    (server : String) (idx : Int)
    (ht : t ≠ "") (hA : legalAmount t a = true) (hE : legalEnchList en = true)
    (hD : legalDurOpt t d = true)
    (hO : validatorOriginServer lore = some server)
    (hS : legalSlots server cont = true) :
    ValidateItem (.mk t a n lore en d cont) server idx = [] ∧
    errorTypes (ValidateItem (.mk "" a n lore en d cont) server idx) =
      ["missing_type"] ∧
    (∀ a2 : Int, a2 ≤ 0 →
      errorTypes (ValidateItem (.mk t a2 n lore en d cont) server idx) =
        ["invalid_amount"]) ∧
    (∀ a2 : Int, (if lookupInt maxStackSizes t = 0 then 64
        else lookupInt maxStackSizes t) < a2 →
      errorTypes (ValidateItem (.mk t a2 n lore en d cont) server idx) =
        ["stack_too_large"]) ∧
    (∀ (et : String) (lv : Int), lookupInt maxEnchantmentLevels et = 0 →
      errorTypes (ValidateItem (.mk t a n lore [⟨some et, some lv⟩] d cont)
        server idx) = ["unknown_enchantment"]) ∧
    (∀ (et : String) (lv : Int), lookupInt maxEnchantmentLevels et ≠ 0 →
      (lv ≤ 0 ∨ lookupInt maxEnchantmentLevels et < lv) →
      errorTypes (ValidateItem (.mk t a n lore [⟨some et, some lv⟩] d cont)
        server idx) = ["invalid_enchantment_level"]) ∧
    (∀ dmg : Int, dmg < 0 →
      errorTypes (ValidateItem
        (.mk t a n lore en (some ⟨some (.num dmg), none⟩) cont) server idx) =
        ["negative_durability"]) ∧
    errorTypes (ValidateItem (.mk t a n lore en (some ⟨some .bad, none⟩) cont)
      server idx) = ["invalid_durability"] ∧
    (∀ (lore2 : List String) (s0 : String),
      validatorOriginServer lore2 = some s0 → s0 ≠ server →
      errorTypes (ValidateItem (.mk t a n lore2 en d cont) server idx) =
        ["wrong_origin"]) ∧
    (∀ lore2 : List String, validatorOriginServer lore2 = none →
      errorTypes (ValidateItem (.mk t a n lore2 en d cont) server idx) =
        ["missing_origin"]) := by
  refine ⟨?_, ?_, ?_, ?_, ?_, ?_, ?_, ?_, ?_, ?_⟩
  · rw [ValidateItem_decomp t a n lore en d cont server idx ht,
      validateAmountBlock_nil_of_legal t a idx hA,
      ench_if_legal idx en hE,
      durBlock_nil_of_legal d t idx hD,
      validateOrigin_ok lore server idx hO,
      cont_if_legal server cont idx hS]
    rfl
  · rw [show ValidateItem (.mk "" a n lore en d cont) server idx =
        [⟨"", "", idx, "missing_type", "Item missing typeId"⟩] by
      simp only [ValidateItem]
      rw [if_pos trivial]]
    rfl
  · intro a2 ha2
    rw [ValidateItem_decomp t a2 n lore en d cont server idx ht,
      validateAmountBlock_nonpos t a2 idx ha2,
      ench_if_legal idx en hE,
      durBlock_nil_of_legal d t idx hD,
      validateOrigin_ok lore server idx hO,
      cont_if_legal server cont idx hS]
    rfl
  · intro a2 ha2
    rw [ValidateItem_decomp t a2 n lore en d cont server idx ht,
      validateAmountBlock_toobig t a2 idx ha2,
      ench_if_legal idx en hE,
      durBlock_nil_of_legal d t idx hD,
      validateOrigin_ok lore server idx hO,
      cont_if_legal server cont idx hS]
    rfl
  · intro et lv hml
    rw [ValidateItem_decomp t a n lore [⟨some et, some lv⟩] d cont server idx ht,
      validateAmountBlock_nil_of_legal t a idx hA,
      ench_if_cons idx ⟨some et, some lv⟩ [],
      validateEnchantsAux_unknown idx et lv hml,
      durBlock_nil_of_legal d t idx hD,
      validateOrigin_ok lore server idx hO,
      cont_if_legal server cont idx hS]
    rfl
  · intro et lv hml hlv
    rw [ValidateItem_decomp t a n lore [⟨some et, some lv⟩] d cont server idx ht,
      validateAmountBlock_nil_of_legal t a idx hA,
      ench_if_cons idx ⟨some et, some lv⟩ [],
      validateEnchantsAux_badlevel idx et lv hml hlv,
      durBlock_nil_of_legal d t idx hD,
      validateOrigin_ok lore server idx hO,
      cont_if_legal server cont idx hS]
    rfl
  · intro dmg hdmg
    rw [ValidateItem_decomp t a n lore en (some ⟨some (.num dmg), none⟩) cont
        server idx ht,
      validateAmountBlock_nil_of_legal t a idx hA,
      ench_if_legal idx en hE,
      durBlock_some ⟨some (.num dmg), none⟩ t idx,
      validateDurability_num_none dmg t idx,
      if_pos hdmg,
      validateOrigin_ok lore server idx hO,
      cont_if_legal server cont idx hS]
    rfl
  · rw [ValidateItem_decomp t a n lore en (some ⟨some .bad, none⟩) cont
        server idx ht,
      validateAmountBlock_nil_of_legal t a idx hA,
      ench_if_legal idx en hE,
      durBlock_some ⟨some .bad, none⟩ t idx,
      validateDurability_bad_none t idx,
      validateOrigin_ok lore server idx hO,
      cont_if_legal server cont idx hS]
    rfl
  · intro lore2 s0 h hs
    rw [ValidateItem_decomp t a n lore2 en d cont server idx ht,
      validateAmountBlock_nil_of_legal t a idx hA,
      ench_if_legal idx en hE,
      durBlock_nil_of_legal d t idx hD,
      validateOrigin_wrong lore2 server idx s0 h hs,
      cont_if_legal server cont idx hS]
    rfl
  · intro lore2 h
    rw [ValidateItem_decomp t a n lore2 en d cont server idx ht,
      validateAmountBlock_nil_of_legal t a idx hA,
      ench_if_legal idx en hE,
      durBlock_nil_of_legal d t idx hD,
      validateOrigin_missing lore2 server idx h,
      cont_if_legal server cont idx hS]
    rfl

/-- Witness for C9 (amended) at a concrete item: the legal diamond sword
validates to `[]`, and the same item with amount 0 yields exactly
`invalid_amount`. -/
theorem c9_validator_round_trip_witness :
    ValidateItem (.mk "minecraft:diamond_sword" 1 "" ["Origin: server1"] []
      (some ⟨some (.num 100), some (.num 1561)⟩) []) "server1" 0 = [] ∧
    errorTypes (ValidateItem
      (.mk "minecraft:diamond_sword" 0 "" ["Origin: server1"] []
        (some ⟨some (.num 100), some (.num 1561)⟩) []) "server1" 0) =
      ["invalid_amount"] := by
  obtain ⟨h1, _, h3, _⟩ := c9_validator_round_trip "minecraft:diamond_sword" 1
    "" ["Origin: server1"] [] (some ⟨some (.num 100), some (.num 1561)⟩) []
    "server1" 0 (by decide) rfl rfl rfl rfl rfl
  exact ⟨h1, h3 0 (by decide)⟩

end ConsensusCraft
